import Mathlib

/-!
# Verification of the pg-mig migration engine

A shallow embedding, in Lean 4, of the core algorithms of the `pg-mig`
schema-migration tool, together with theorems settling the specification
claims about them.  Strings are modelled as `List Char` (`Str`), matching
JavaScript's sequence-of-code-units view closely enough for this code,
which is ASCII-oriented.
-/

namespace PgMig

/-- Strings are modelled as lists of characters. -/
abbrev Str := List Char

/-- JS `\s` whitespace class, restricted to the ASCII whitespace characters
that occur in SQL files. -/
def isSpaceJS (c : Char) : Bool :=
  c = ' ' || c = '\t' || c = '\n' || c = '\r' ||
  c = Char.ofNat 11 || c = Char.ofNat 12

/-- JS `\d`. -/
def isDigitJS (c : Char) : Bool :=
  '0' ≤ c && c ≤ '9'

/-- JS `\w` (word characters, used by `\b` word boundaries): the code-unit
ranges of `a`–`z` (97–122) and `A`–`Z` (65–90), the digits, and `_`. -/
def isWordChar (c : Char) : Bool :=
  (97 ≤ c.toNat && c.toNat ≤ 122) || (65 ≤ c.toNat && c.toNat ≤ 90) ||
  isDigitJS c || c = '_'

/-- ASCII lowercasing, for case-insensitive (`/i`) regex matching. -/
def lowerJS (c : Char) : Char :=
  if 'A' ≤ c && c ≤ 'Z' then Char.ofNat (c.toNat + 32) else c

/-- Case-insensitive character comparison (`/i` flag). -/
def charEqCI (a b : Char) : Bool :=
  lowerJS a = lowerJS b

/-- JS `String.prototype.startsWith`. -/
def startsWith : Str → Str → Bool
  | _, [] => true
  | [], _ :: _ => false
  | c :: cs, p :: ps => c = p && startsWith cs ps

/-- JS `<` on strings: lexicographic comparison by code unit (`Char`'s
order is by scalar value). -/
def ltStr : Str → Str → Bool
  | [], [] => false
  | [], _ :: _ => true
  | _ :: _, [] => false
  | a :: as, b :: bs => if a = b then ltStr as bs else decide (a < b)

/-- `a ≤ b` on strings in the JS sense. -/
def leStr (a b : Str) : Bool :=
  !(ltStr b a)

/-- `leStr` as a relation, for Mathlib's sorting combinators. -/
def LeP (a b : Str) : Prop :=
  leStr a b = true

instance : DecidableRel LeP := fun a b => by
  unfold LeP
  infer_instance

lemma ltStr_irrefl : ∀ a : Str, ltStr a a = false := by
  intro a
  induction a with
  | nil => rfl
  | cons c cs ih => simp [ltStr, ih]

lemma ltStr_trans : ∀ a b c : Str, ltStr a b = true → ltStr b c = true → ltStr a c = true := by
  intro a
  induction a with
  | nil =>
    intro b c hab hbc
    cases b with
    | nil => simp [ltStr] at hab
    | cons y ys =>
      cases c with
      | nil => simp [ltStr] at hbc
      | cons z zs => rfl
  | cons x xs ih =>
    intro b c hab hbc
    cases b with
    | nil => simp [ltStr] at hab
    | cons y ys =>
      cases c with
      | nil => simp [ltStr] at hbc
      | cons z zs =>
        simp only [ltStr] at hab hbc ⊢
        by_cases hxy : x = y
        · subst hxy
          simp only [if_pos rfl] at hab
          by_cases hxz : x = z
          · subst hxz
            simp only [if_pos rfl] at hbc ⊢
            exact ih ys zs hab hbc
          · simp only [if_neg hxz] at hbc ⊢
            exact hbc
        · simp only [if_neg hxy] at hab
          by_cases hyz : y = z
          · subst hyz
            simp only [if_neg hxy]
            exact hab
          · simp only [if_neg hyz] at hbc
            have hxz : x < z := lt_trans (by simpa using hab) (by simpa using hbc)
            have hne : x ≠ z := ne_of_lt hxz
            simp [if_neg hne, hxz]

lemma ltStr_total : ∀ a b : Str, a ≠ b → ltStr a b = true ∨ ltStr b a = true := by
  intro a
  induction a with
  | nil =>
    intro b hne
    cases b with
    | nil => exact absurd rfl hne
    | cons y ys => left; rfl
  | cons x xs ih =>
    intro b hne
    cases b with
    | nil => right; rfl
    | cons y ys =>
      by_cases hxy : x = y
      · subst hxy
        have hys : xs ≠ ys := by
          intro he
          exact hne (by rw [he])
        rcases ih ys hys with h | h
        · left; simp [ltStr, h]
        · right; simp [ltStr, h]
      · rcases lt_trichotomy x y with h | h | h
        · left; simp [ltStr, if_neg hxy, h]
        · exact absurd h hxy
        · right
          have hyx : y ≠ x := fun he => hxy he.symm
          simp [ltStr, if_neg hyx, h]

instance : IsTotal Str LeP :=
  ⟨by
    intro a b
    by_cases he : a = b
    · subst he
      left
      simp [LeP, leStr, ltStr_irrefl]
    · rcases ltStr_total a b he with h | h
      · left
        simp only [LeP, leStr, Bool.not_eq_true']
        by_contra hba
        have := ltStr_trans a b a h (by simpa using hba)
        rw [ltStr_irrefl] at this
        cases this
      · right
        simp only [LeP, leStr, Bool.not_eq_true']
        by_contra hab
        have := ltStr_trans b a b h (by simpa using hab)
        rw [ltStr_irrefl] at this
        cases this⟩

instance : IsTrans Str LeP :=
  ⟨by
    intro a b c hab hbc
    simp only [LeP, leStr, Bool.not_eq_true'] at hab hbc ⊢
    by_contra h
    have hca : ltStr c a = true := by simpa using h
    by_cases hae : a = b
    · subst hae
      rw [hca] at hbc
      cases hbc
    · rcases ltStr_total a b hae with h1 | h1
      · have h2 := ltStr_trans c a b hca h1
        rw [h2] at hbc
        cases hbc
      · rw [h1] at hab
        cases hab⟩

/-- Stable ascending sort by JS string comparison; models lodash
`sortBy(strings)`. -/
def sortStr (l : List Str) : List Str :=
  List.insertionSort LeP l

/-!
## Data model (`src/internal/Registry.ts`, `src/internal/Patch.ts`)

`File.parallelismPerHost`/`parallelismGlobal` use `Option Int` where `none`
encodes JavaScript's `Number.POSITIVE_INFINITY`.  The raw `vars` map of a
`File` is only forwarded verbatim to the SQL runner, so it is omitted here.
-/

/-- One migration file (either `*.up.*` or `*.dn.*`); source: interface
`File` in `Registry.ts`. -/
structure MigFile where
  fileName : Str
  parallelismPerHost : Option Int
  parallelismGlobal : Option Int
  delay : Int
  runAlone : Bool
  deriving DecidableEq, Inhabited, Repr

/-- A pair of up+dn files representing one migration; source: interface
`Entry` in `Registry.ts`.  The source field `schemaPrefix` is called
`schemaPfx` here. -/
structure Entry where
  up : MigFile
  dn : MigFile
  name : Str
  schemaPfx : Str
  deriving DecidableEq, Inhabited, Repr

/-- A (host, database, schema) endpoint; source: class `Dest`.  Only the
fields the planner and executor read are modelled. -/
structure Dest where
  host : Str
  db : Str
  schema : Str
  deriving DecidableEq, Inhabited, Repr

/-- A migration to apply to some Dest; source: interface `Migration` in
`Patch.ts`. -/
structure Migration where
  version : Str
  file : MigFile
  newVersions : Option (List Str)
  deriving DecidableEq, Inhabited, Repr

/-- Direction of a chain. -/
inductive ChainType where
  | up
  | dn
  deriving DecidableEq, Repr

/-- A sequence of migrations to apply one by one to a particular Dest;
source: interface `Chain` in `Patch.ts`. -/
structure Chain where
  type : ChainType
  dest : Dest
  migrations : List Migration
  deriving DecidableEq, Repr

/-- The strings thrown by `Patch` / `Registry`, as structured values carrying
exactly the data interpolated into the original message:
* `timelineViolation proposed applied` — "Migration timeline violation:
  you are asking to apply version `proposed`, although version `applied` has
  already been applied. …";
* `missingOnDisk v` — "Version `v` exists in the DB, but is missing on
  disk. …";
* `noSuchVersionOnDisk v` — "No such version on disk: `v` (in `dir`)";
* `undoNotLatest v after` — "We can undo to only the latest version, and
  there are versions in the DB after `v`: `after`". -/
inductive PatchError where
  | timelineViolation (proposed : Str) (applied : Str)
  | missingOnDisk (version : Str)
  | noSuchVersionOnDisk (version : Str)
  | undoNotLatest (version : Str) (after : List Str)
  deriving DecidableEq, Repr

/-!
## `Registry.extractVersion`

Source: `extractVersion(name)` returns `name.match(/^\d+\.[^.]+\.[^.]+/)`
when the regex matches, and `name` unchanged otherwise.  The character
classes `\d+` and `[^.]+` cannot cross a `'.'`, so maximal-munch spans are
exactly the regex semantics.
-/

def extractVersion (name : Str) : Str :=
  let d := name.takeWhile isDigitJS
  if d.isEmpty then name else
  match name.drop d.length with
  | '.' :: r₂ =>
    let t := r₂.takeWhile (fun c => c ≠ '.')
    if t.isEmpty then name else
    match r₂.drop t.length with
    | '.' :: r₃ =>
      let p := r₃.takeWhile (fun c => c ≠ '.')
      if p.isEmpty then name else d ++ '.' :: t ++ '.' :: p
    | _ => name
  | _ => name

/-!
## `Patch.getChainUp` (`Patch.ts` lines 94–139)
-/

/-- The `entriesToApply.map((entry, pos) => …)` body of `getChainUp`:
the `pos`-th migration gets `newVersions = dbVersions ++
entriesToApply.slice(0, pos + 1).map(ver => ver.name)`. -/
def upMigrations (dbVersions : List Str) (entriesToApply : List Entry) : List Migration :=
  entriesToApply.enum.map fun pe =>
    { version := pe.2.name
      file := pe.2.up
      newVersions := some (dbVersions ++ ((entriesToApply.take (pe.1 + 1)).map (·.name))) }

/-- The code after the `for` loop of `getChainUp`: the missing-on-disk
check and the empty chain. -/
def getChainUpPost (dest : Dest) (dbVersions : List Str) (reEntries : List Entry) :
    Except PatchError Chain :=
  if reEntries.length < dbVersions.length then
    .error (.missingOnDisk (dbVersions.getD reEntries.length []))
  else
    .ok { type := .up, dest := dest, migrations := [] }

/-- The `for (let i = 0; i < reEntries.length; i++)` loop of `getChainUp`,
starting at index `i`.  `fuel` counts the remaining iterations (it is
`reEntries.length - i` at every call site) and makes the recursion
structural. -/
def getChainUpAux (dest : Dest) (dbVersions : List Str) (reEntries : List Entry) :
    Nat → Nat → Except PatchError Chain
  | 0, _ => getChainUpPost dest dbVersions reEntries
  | fuel + 1, i =>
    if i < reEntries.length then
      if dbVersions.length ≤ i then
        .ok { type := .up, dest := dest,
              migrations := upMigrations dbVersions (reEntries.drop i) }
      else if dbVersions.getD i [] ≠ (reEntries.getD i default).name then
        .error (.timelineViolation (reEntries.getD i default).name (dbVersions.getD i []))
      else
        getChainUpAux dest dbVersions reEntries fuel (i + 1)
    else
      getChainUpPost dest dbVersions reEntries

/-- `Patch.getChainUp`. -/
def getChainUp (dest : Dest) (dbVersions : List Str) (reEntries : List Entry) :
    Except PatchError Chain :=
  getChainUpAux dest dbVersions reEntries reEntries.length 0

/-!
## `Patch.getChainDn` (`Patch.ts` lines 141–187)

JS note: `dbVersions[dbVersions.length - 1] === undoVersion` is modelled by
`dbVersions.getLast? = some undoVersion` (on an empty array the JS index
read yields `undefined`, which never equals a string).  JS
`dbVersions.indexOf(x) >= 0` is modelled by `dbVersions.indexOf x <
dbVersions.length` (Lean's `indexOf` returns the length when absent, JS
returns `-1`).
-/

/-- JS `Array.prototype.indexOf`, except that "not found" is reported as
the list length rather than `-1` (the caller compares against the
length). -/
def indexOfStr (a : Str) : List Str → Nat
  | [] => 0
  | b :: bs => if b = a then 0 else indexOfStr a bs + 1

lemma indexOfStr_lt_length_of_mem {a : Str} {l : List Str} (h : a ∈ l) :
    indexOfStr a l < l.length := by
  induction l with
  | nil => cases h
  | cons b bs ih =>
    by_cases hb : b = a
    · simp [indexOfStr, hb]
    · have h' : a ∈ bs := by
        cases h with
        | head => exact absurd rfl hb
        | tail _ hm => exact hm
      simpa [indexOfStr, hb] using ih h'

lemma indexOfStr_eq_length_of_not_mem {a : Str} {l : List Str} (h : a ∉ l) :
    indexOfStr a l = l.length := by
  induction l with
  | nil => rfl
  | cons b bs ih =>
    have hb : b ≠ a := fun hba => h (hba ▸ List.mem_cons_self b bs)
    have hm : a ∉ bs := fun hm => h (List.mem_cons_of_mem b hm)
    simp [indexOfStr, hb, ih hm]

def getChainDn (dest : Dest) (dbVersions : List Str) (reEntries : List Entry)
    (undoVersionArg : Str) : Except PatchError (Option Chain) :=
  let undoVersion := extractVersion undoVersionArg
  if dbVersions.getLast? = some undoVersion then
    match reEntries.find? (fun entry => entry.name = undoVersion) with
    | some undoEntry =>
      .ok (some { type := .dn, dest := dest,
                  migrations := [{ version := undoVersion, file := undoEntry.dn,
                                   newVersions := some dbVersions.dropLast }] })
    | none => .error (.noSuchVersionOnDisk undoVersion)
  else
    let pos := indexOfStr undoVersion dbVersions
    if pos < dbVersions.length then
      .error (.undoNotLatest undoVersion (dbVersions.drop (pos + 1)))
    else
      .ok none

/-!
## Lemmas about `getChainUp`
-/

lemma getChainUpAux_step (dest : Dest) (dbVersions : List Str) (reEntries : List Entry)
    (fuel i : Nat) (hiE : i < reEntries.length) (hiD : i < dbVersions.length)
    (heq : dbVersions.getD i [] = (reEntries.getD i default).name) :
    getChainUpAux dest dbVersions reEntries (fuel + 1) i =
      getChainUpAux dest dbVersions reEntries fuel (i + 1) := by
  rw [getChainUpAux]
  rw [if_pos hiE, if_neg (Nat.not_le.mpr hiD), if_neg (fun h => h heq)]

lemma getChainUpAux_start (dest : Dest) (dbVersions : List Str) (reEntries : List Entry) :
    ∀ i, i ≤ dbVersions.length → i ≤ reEntries.length →
    (∀ j, j < i → dbVersions.getD j [] = (reEntries.getD j default).name) →
    getChainUp dest dbVersions reEntries =
      getChainUpAux dest dbVersions reEntries (reEntries.length - i) i := by
  intro i
  induction i with
  | zero => intro _ _ _; rfl
  | succ n ih =>
    intro h1 h2 h3
    have hn : getChainUp dest dbVersions reEntries =
        getChainUpAux dest dbVersions reEntries (reEntries.length - n) n :=
      ih (Nat.le_of_succ_le h1) (Nat.le_of_succ_le h2)
        (fun j hj => h3 j (Nat.lt_succ_of_lt hj))
    have hfuel : reEntries.length - n = (reEntries.length - (n + 1)) + 1 := by omega
    rw [hn, hfuel,
      getChainUpAux_step dest dbVersions reEntries _ n
        (Nat.lt_of_succ_le h2) (Nat.lt_of_succ_le h1) (h3 n (Nat.lt_succ_self n))]

lemma prefix_getD (l₁ l₂ : List Str) (h : l₁ <+: l₂) (j : Nat) (hj : j < l₁.length) :
    l₁.getD j [] = l₂.getD j [] := by
  obtain ⟨t, rfl⟩ := h
  rw [List.getD_eq_getElem _ _ hj,
    List.getD_eq_getElem _ _ (Nat.lt_of_lt_of_le hj (by simp)),
    List.getElem_append_left hj]

lemma upMigrations_length (dbVersions : List Str) (es : List Entry) :
    (upMigrations dbVersions es).length = es.length := by
  simp [upMigrations]

lemma upMigrations_getD (dbVersions : List Str) (es : List Entry) (k : Nat)
    (hk : k < es.length) :
    (upMigrations dbVersions es).getD k default =
      { version := (es.getD k default).name
        file := (es.getD k default).up
        newVersions := some (dbVersions ++ ((es.take (k + 1)).map (·.name))) } := by
  have hk' : k < (upMigrations dbVersions es).length := by
    rw [upMigrations_length]; exact hk
  rw [List.getD_eq_getElem _ _ hk', List.getD_eq_getElem _ _ hk]
  simp [upMigrations]

/-- **C1.** For every schema: when the persisted version list is a proper
prefix of the Registry entry names, `getChainUp` returns an "up" chain of
exactly the entries from index `len(persisted)` onward, in order, where
the `k`-th emitted Migration's `newVersions` is the persisted list
followed by the names of the emitted entries up to and including the
`k`-th; if some (least) index `i` has `persisted[i] ≠ entries[i].name`,
it fails with the timeline-violation error naming both versions; and if
every entry matches but the persisted list is strictly longer, it fails
with the missing-on-disk error naming the first extra persisted
version. -/
theorem claim_C1_getChainUp (dest : Dest) (persisted : List Str) (entries : List Entry) :
    (persisted <+: entries.map (·.name) → persisted.length < entries.length →
      getChainUp dest persisted entries =
        .ok ⟨.up, dest, upMigrations persisted (entries.drop persisted.length)⟩ ∧
      (upMigrations persisted (entries.drop persisted.length)).length =
        entries.length - persisted.length ∧
      (∀ k, k < (upMigrations persisted (entries.drop persisted.length)).length →
        ((upMigrations persisted (entries.drop persisted.length)).getD k default).version =
          ((entries.drop persisted.length).getD k default).name ∧
        ((upMigrations persisted (entries.drop persisted.length)).getD k default).file =
          ((entries.drop persisted.length).getD k default).up ∧
        ((upMigrations persisted (entries.drop persisted.length)).getD k default).newVersions =
          some (persisted ++ (((entries.drop persisted.length).take (k + 1)).map (·.name))))) ∧
    (∀ i, i < persisted.length → i < entries.length →
      (∀ j, j < i → persisted.getD j [] = (entries.getD j default).name) →
      persisted.getD i [] ≠ (entries.getD i default).name →
      getChainUp dest persisted entries =
        .error (.timelineViolation (entries.getD i default).name (persisted.getD i []))) ∧
    ((∀ j, j < entries.length → persisted.getD j [] = (entries.getD j default).name) →
      entries.length < persisted.length →
      getChainUp dest persisted entries =
        .error (.missingOnDisk (persisted.getD entries.length []))) := by
  refine ⟨?_, ?_, ?_⟩
  · intro hpre hlen
    have hlenP : persisted.length ≤ (entries.map (·.name)).length := hpre.length_le
    have hmatch : ∀ j, j < persisted.length →
        persisted.getD j [] = (entries.getD j default).name := by
      intro j hj
      have h₁ := prefix_getD _ _ hpre j hj
      have hj' : j < entries.length := by
        simpa using Nat.lt_of_lt_of_le hj hlenP
      rw [h₁, List.getD_eq_getElem _ _ (by simpa using hj'),
        List.getD_eq_getElem _ _ hj']
      simp
    have hstart := getChainUpAux_start dest persisted entries persisted.length
      (Nat.le_refl _) (Nat.le_of_lt hlen) hmatch
    have hfuel : entries.length - persisted.length =
        (entries.length - persisted.length - 1) + 1 := by omega
    rw [hfuel] at hstart
    rw [getChainUpAux, if_pos hlen, if_pos (Nat.le_refl _)] at hstart
    refine ⟨hstart, ?_, ?_⟩
    · rw [upMigrations_length]; simp
    · intro k hk
      rw [upMigrations_length] at hk
      rw [upMigrations_getD _ _ _ hk]
      exact ⟨rfl, rfl, rfl⟩
  · intro i hiD hiE hprev hne
    have hstart := getChainUpAux_start dest persisted entries i
      (Nat.le_of_lt hiD) (Nat.le_of_lt hiE) hprev
    have hfuel : entries.length - i = (entries.length - i - 1) + 1 := by omega
    rw [hfuel] at hstart
    rw [getChainUpAux, if_pos hiE, if_neg (Nat.not_le.mpr hiD), if_pos hne] at hstart
    exact hstart
  · intro hall hlen
    have hstart := getChainUpAux_start dest persisted entries entries.length
      (Nat.le_of_lt hlen) (Nat.le_refl _) hall
    rw [Nat.sub_self] at hstart
    rw [getChainUpAux, getChainUpPost, if_pos hlen] at hstart
    exact hstart

/-!
## Sample data used by the witnesses
-/

def sampleFile (s : String) : MigFile :=
  ⟨s.toList, none, none, 0, false⟩

def sampleEntry (nm : String) : Entry :=
  ⟨sampleFile (nm ++ ".up.sql"), sampleFile (nm ++ ".dn.sql"), nm.toList, "sh".toList⟩

def sampleDest : Dest :=
  ⟨"host1".toList, "db1".toList, "sh0001".toList⟩

def entryA : Entry := sampleEntry "1.a.sh"

def entryB : Entry := sampleEntry "2.b.sh"

/-- Closed instantiation of `claim_C1_getChainUp`: one pending version is
planned with the right `newVersions`, a diverging history raises the
timeline violation, and an over-long history raises missing-on-disk. -/
theorem claim_C1_getChainUp_witness :
    getChainUp sampleDest ["1.a.sh".toList] [entryA, entryB] =
      .ok ⟨.up, sampleDest,
        [⟨"2.b.sh".toList, entryB.up, some ["1.a.sh".toList, "2.b.sh".toList]⟩]⟩ ∧
    getChainUp sampleDest ["1.a.sh".toList, "3.c.sh".toList] [entryA, entryB] =
      .error (.timelineViolation "2.b.sh".toList "3.c.sh".toList) ∧
    getChainUp sampleDest
        ["1.a.sh".toList, "2.b.sh".toList, "3.c.sh".toList] [entryA, entryB] =
      .error (.missingOnDisk "3.c.sh".toList) := by
  refine ⟨((claim_C1_getChainUp sampleDest _ _).1 ⟨["2.b.sh".toList], by decide⟩
    (by decide)).1, ?_, ?_⟩
  · exact (claim_C1_getChainUp sampleDest _ _).2.1 1 (by decide) (by decide)
      (by decide) (by decide)
  · exact (claim_C1_getChainUp sampleDest _ _).2.2 (by decide) (by decide)

/-- **C2.** For every persisted list and undo target (after canonicalizing
the undo argument through `extractVersion`): if the last persisted version
is the undo version and its entry is found, `getChainDn` emits a one-step
"dn" chain using the entry's `dn` file with `newVersions` the persisted
list without its last element; if the undo version occurs in the persisted
list but not as the last element, it fails; if it was never applied on the
schema, it returns `none` (the schema is skipped silently). -/
theorem claim_C2_getChainDn (dest : Dest) (persisted : List Str) (entries : List Entry)
    (undoArg : Str) :
    (persisted.getLast? = some (extractVersion undoArg) →
      ∀ e, entries.find? (fun en => en.name = extractVersion undoArg) = some e →
      getChainDn dest persisted entries undoArg =
        .ok (some ⟨.dn, dest,
          [⟨extractVersion undoArg, e.dn, some persisted.dropLast⟩]⟩)) ∧
    (persisted.getLast? ≠ some (extractVersion undoArg) →
      extractVersion undoArg ∈ persisted →
      getChainDn dest persisted entries undoArg =
        .error (.undoNotLatest (extractVersion undoArg)
          (persisted.drop (indexOfStr (extractVersion undoArg) persisted + 1)))) ∧
    (persisted.getLast? ≠ some (extractVersion undoArg) →
      extractVersion undoArg ∉ persisted →
      getChainDn dest persisted entries undoArg = .ok none) := by
  refine ⟨?_, ?_, ?_⟩
  · intro hlast e hfind
    simp only [getChainDn, if_pos hlast, hfind]
  · intro hlast hmem
    have hidx : indexOfStr (extractVersion undoArg) persisted < persisted.length :=
      indexOfStr_lt_length_of_mem hmem
    simp only [getChainDn, if_neg hlast, if_pos hidx]
  · intro hlast hmem
    have hidx : indexOfStr (extractVersion undoArg) persisted = persisted.length :=
      indexOfStr_eq_length_of_not_mem hmem
    simp only [getChainDn, if_neg hlast, hidx, if_neg (lt_irrefl persisted.length)]

/-- Closed instantiation of `claim_C2_getChainDn`, also exercising the
`extractVersion` canonicalization of the undo argument. -/
theorem claim_C2_getChainDn_witness :
    getChainDn sampleDest ["1.a.sh".toList, "2.b.sh".toList] [entryA, entryB]
        "2.b.sh.up.sql".toList =
      .ok (some ⟨.dn, sampleDest,
        [⟨"2.b.sh".toList, entryB.dn, some ["1.a.sh".toList]⟩]⟩) ∧
    getChainDn sampleDest ["1.a.sh".toList, "2.b.sh".toList] [entryA, entryB]
        "1.a.sh".toList =
      .error (.undoNotLatest "1.a.sh".toList ["2.b.sh".toList]) ∧
    getChainDn sampleDest ["1.a.sh".toList] [entryA, entryB] "3.c.sh".toList =
      .ok none := by
  refine ⟨?_, ?_, ?_⟩
  · exact (claim_C2_getChainDn sampleDest _ _ _).1 (by decide) entryB (by decide)
  · exact (claim_C2_getChainDn sampleDest _ _ _).2.1 (by decide) (by decide)
  · exact (claim_C2_getChainDn sampleDest _ _ _).2.2 (by decide) (by decide)

/-!
## `schemaNameMatchesPrefix` (`helpers/schemaNameMatchesPrefix.ts`)

Called `schemaNameMatchesPfx` here (same for the `schemaPrefix` field,
`schemaPfx`).  `schema.substring(prefix.length).match(/^\d/)` is a digit
test on the first character after the prefix; `prefix.match(/\d/)` tests
whether the prefix contains any digit.
-/

def schemaNameMatchesPfx (schema pfx : Str) : Bool :=
  let schemaStartsWith := startsWith schema pfx
  let schemaEqualsExactly : Bool := schema = pfx
  let schemaHasDigitAfter : Bool :=
    match schema.drop pfx.length with
    | c :: _ => isDigitJS c
    | [] => false
  let pfxItselfHasDigit : Bool := pfx.any isDigitJS
  schemaStartsWith && (schemaEqualsExactly || schemaHasDigitAfter || pfxItselfHasDigit)

/-!
## `Registry.groupBySchema` (`Registry.ts` lines 126–155)

`entriesByPrefix` is modelled as an association list (the `Map` of the
source preserves insertion order; the Registry constructor sorts it by
descending prefix length).  The `entriesBySchema` result `Map` is likewise
an association list: `Map.set` of a fresh key appends at the end.
-/

/-- The error thrown by `groupBySchema`: "Schema `schema` matches more than
one migration prefix (`q₁` and `q₂`)". -/
inductive RegistryError where
  | conflict (schema : Str) (q₁ : Str) (q₂ : Str)
  deriving DecidableEq, Repr

def lookupSchema (m : List (Str × List Entry)) (s : Str) : Option (List Entry) :=
  match m with
  | [] => none
  | (k, v) :: rest => if k = s then some v else lookupSchema rest s

/-- The inner `for (const [schemaPrefix, list] of this.entriesByPrefix)`
loop of `groupBySchema`, for one `schema`, over the remaining prefix
entries, carrying the `entriesBySchema` map `m`. -/
def groupSchemaFold (schema : Str) :
    List (Str × List Entry) → List (Str × List Entry) →
    Except RegistryError (List (Str × List Entry))
  | m, [] => .ok m
  | m, (pfx, list) :: rest =>
    if !schemaNameMatchesPfx schema pfx then
      groupSchemaFold schema m rest
    else
      match lookupSchema m schema with
      | some chosen =>
        if startsWith (chosen.headD default).schemaPfx pfx then
          groupSchemaFold schema m rest
        else
          .error (.conflict schema (chosen.headD default).schemaPfx pfx)
      | none => groupSchemaFold schema (m ++ [(schema, list)]) rest

/-- The outer `for (const schema of schemas)` loop of `groupBySchema`. -/
def groupBySchemaAux (entriesByPfx : List (Str × List Entry)) :
    List (Str × List Entry) → List Str →
    Except RegistryError (List (Str × List Entry))
  | m, [] => .ok m
  | m, s :: ss =>
    match groupSchemaFold s m entriesByPfx with
    | .ok m₂ => groupBySchemaAux entriesByPfx m₂ ss
    | .error e => .error e

/-- `Registry.groupBySchema`. -/
def groupBySchema (entriesByPfx : List (Str × List Entry)) (schemas : List Str) :
    Except RegistryError (List (Str × List Entry)) :=
  groupBySchemaAux entriesByPfx [] schemas

def isOkE {ε α : Type} : Except ε α → Bool
  | .ok _ => true
  | .error _ => false

/-- Well-formedness of the prefix map produced by the Registry constructor:
every entry list is non-empty and its entries carry the prefix they are
grouped under. -/
def WfByPfx (eb : List (Str × List Entry)) : Prop :=
  ∀ pe ∈ eb, pe.2 ≠ [] ∧ ∀ e ∈ pe.2, e.schemaPfx = pe.1

instance (eb : List (Str × List Entry)) : Decidable (WfByPfx eb) := by
  unfold WfByPfx
  infer_instance

lemma lookupSchema_append_self (m : List (Str × List Entry)) (s : Str) (v : List Entry)
    (h : lookupSchema m s = none) : lookupSchema (m ++ [(s, v)]) s = some v := by
  induction m with
  | nil => simp [lookupSchema]
  | cons kv rest ih =>
    by_cases hk : kv.1 = s
    · simp [lookupSchema, hk] at h
    · simp only [lookupSchema, hk, if_neg hk] at h ⊢
      exact ih h

lemma lookupSchema_append_of_ne (m : List (Str × List Entry)) (s s' : Str)
    (v : List Entry) (h : s' ≠ s) :
    lookupSchema (m ++ [(s', v)]) s = lookupSchema m s := by
  induction m with
  | nil => simp [lookupSchema, h]
  | cons kv rest ih =>
    by_cases hk : kv.1 = s
    · simp [lookupSchema, hk]
    · simp only [List.cons_append, lookupSchema, if_neg hk]
      exact ih

/-- Once a schema is bound to a chosen list whose head carries `p₀`, the
remaining iterations skip every later matching prefix of which `p₀` is an
extension, leaving the map unchanged. -/
lemma groupSchemaFold_skip (s : Str) (p₀ : Str) :
    ∀ (eb m : List (Str × List Entry)) (es₀ : List Entry),
    lookupSchema m s = some es₀ → (es₀.headD default).schemaPfx = p₀ →
    (∀ pe ∈ eb.filter (fun pe => schemaNameMatchesPfx s pe.1), startsWith p₀ pe.1 = true) →
    groupSchemaFold s m eb = .ok m := by
  intro eb
  induction eb with
  | nil => intro m es₀ _ _ _; rfl
  | cons pe tl ih =>
    intro m es₀ hlook hhead hall
    by_cases hm : schemaNameMatchesPfx s pe.1 = true
    · have hpe : startsWith p₀ pe.1 = true := by
        refine hall pe ?_
        simp [List.mem_filter, hm]
      have : groupSchemaFold s m (pe :: tl) = groupSchemaFold s m tl := by
        obtain ⟨p, list⟩ := pe
        simp only [groupSchemaFold, hm, Bool.not_true, hlook, hhead]
        simp at hpe
        simp [hpe]
      rw [this]
      refine ih m es₀ hlook hhead ?_
      intro pe' hpe'
      refine hall pe' ?_
      simp only [List.filter_cons, hm] at *
      simp_all [List.mem_filter]
    · have : groupSchemaFold s m (pe :: tl) = groupSchemaFold s m tl := by
        obtain ⟨p, list⟩ := pe
        simp [groupSchemaFold, hm]
      rw [this]
      refine ih m es₀ hlook hhead ?_
      intro pe' hpe'
      refine hall pe' ?_
      simp [List.filter_cons, hm, hpe']

/-- Once a schema is bound to a chosen list whose head carries `p₀`, the
first later matching prefix that is not a prefix of `p₀` raises the
conflict error naming both. -/
lemma groupSchemaFold_conflict (s : Str) (p₀ : Str) :
    ∀ (eb m : List (Str × List Entry)) (es₀ : List Entry) (pb : Str × List Entry),
    lookupSchema m s = some es₀ → (es₀.headD default).schemaPfx = p₀ →
    (eb.filter (fun pe => schemaNameMatchesPfx s pe.1)).find?
        (fun pe => !startsWith p₀ pe.1) = some pb →
    groupSchemaFold s m eb = .error (.conflict s p₀ pb.1) := by
  intro eb
  induction eb with
  | nil => intro m es₀ pb _ _ hfind; simp at hfind
  | cons pe tl ih =>
    intro m es₀ pb hlook hhead hfind
    by_cases hm : schemaNameMatchesPfx s pe.1 = true
    · simp only [List.filter_cons, hm, if_true, List.find?_cons] at hfind
      by_cases hpref : startsWith p₀ pe.1 = true
      · simp only [hpref, Bool.not_true] at hfind
        have hstep : groupSchemaFold s m (pe :: tl) = groupSchemaFold s m tl := by
          obtain ⟨p, list⟩ := pe
          simp only [groupSchemaFold, hm, Bool.not_true, hlook, hhead]
          simp at hpref
          simp [hpref]
        rw [hstep]
        exact ih m es₀ pb hlook hhead hfind
      · have hpf : startsWith p₀ pe.1 = false := by simpa using hpref
        simp only [hpf, Bool.not_false] at hfind
        obtain ⟨p, list⟩ := pe
        cases hfind
        simp only [groupSchemaFold, hm, Bool.not_true, hlook, hhead]
        simp only [startsWith] at hpf
        simp [hpf]
    · have hstep : groupSchemaFold s m (pe :: tl) = groupSchemaFold s m tl := by
        obtain ⟨p, list⟩ := pe
        simp [groupSchemaFold, hm]
      simp only [List.filter_cons, hm, if_false] at hfind
      rw [hstep]
      exact ih m es₀ pb hlook hhead hfind

/-- Behaviour of the inner loop for a schema that is not yet bound: the
first matching prefix is chosen, later matching prefixes are either all
skipped (when the chosen prefix extends them) or the first incomparable
one raises the conflict. -/
lemma groupSchemaFold_fresh (s : Str) :
    ∀ (eb m : List (Str × List Entry)), lookupSchema m s = none → WfByPfx eb →
    (eb.filter (fun pe => schemaNameMatchesPfx s pe.1) = [] →
      groupSchemaFold s m eb = .ok m) ∧
    (∀ p₀ es₀ rest,
      eb.filter (fun pe => schemaNameMatchesPfx s pe.1) = (p₀, es₀) :: rest →
      ((∀ pe ∈ rest, startsWith p₀ pe.1 = true) →
        groupSchemaFold s m eb = .ok (m ++ [(s, es₀)])) ∧
      (∀ pb, rest.find? (fun pe => !startsWith p₀ pe.1) = some pb →
        groupSchemaFold s m eb = .error (.conflict s p₀ pb.1))) := by
  intro eb
  induction eb with
  | nil =>
    intro m _ _
    exact ⟨fun _ => rfl, fun p₀ es₀ rest h => by simp at h⟩
  | cons pe tl ih =>
    intro m hlook hwf
    have hwftl : WfByPfx tl := fun pe hp => hwf pe (List.mem_cons_of_mem _ hp)
    by_cases hm : schemaNameMatchesPfx s pe.1 = true
    · obtain ⟨p, list⟩ := pe
      have hstep : groupSchemaFold s m ((p, list) :: tl) =
          groupSchemaFold s (m ++ [(s, list)]) tl := by
        simp [groupSchemaFold, hm, hlook]
      have hfilter : ((p, list) :: tl).filter (fun pe => schemaNameMatchesPfx s pe.1) =
          (p, list) :: tl.filter (fun pe => schemaNameMatchesPfx s pe.1) := by
        simp [List.filter_cons, hm]
      refine ⟨fun hemp => ?_, fun p₀ es₀ rest hcons => ?_⟩
      · rw [hfilter] at hemp; cases hemp
      · rw [hfilter] at hcons
        obtain ⟨hhead, hrest⟩ := List.cons.inj hcons
        obtain ⟨hp, hes⟩ := Prod.mk.inj hhead
        subst hp
        subst hes
        subst hrest
        have hlook₂ : lookupSchema (m ++ [(s, list)]) s = some list :=
          lookupSchema_append_self m s list hlook
        have hwfhead := hwf (p, list) (List.mem_cons_self _ _)
        have hheadPfx : (list.headD default).schemaPfx = p := by
          refine hwfhead.2 _ ?_
          cases list with
          | nil => exact absurd rfl hwfhead.1
          | cons e es => exact List.mem_cons_self _ _
        constructor
        · intro hall
          rw [hstep]
          exact groupSchemaFold_skip s p tl (m ++ [(s, list)]) list hlook₂ hheadPfx
            (fun pe hpe => hall pe (by simpa using hpe))
        · intro pb hfind
          rw [hstep]
          exact groupSchemaFold_conflict s p tl (m ++ [(s, list)]) list pb
            hlook₂ hheadPfx hfind
    · obtain ⟨p, list⟩ := pe
      have hstep : groupSchemaFold s m ((p, list) :: tl) = groupSchemaFold s m tl := by
        simp [groupSchemaFold, hm]
      have hfilter : ((p, list) :: tl).filter (fun pe => schemaNameMatchesPfx s pe.1) =
          tl.filter (fun pe => schemaNameMatchesPfx s pe.1) := by
        simp [List.filter_cons, hm]
      rw [hstep, hfilter]
      exact ih m hlook hwftl

/-- Processing a different schema never changes an existing binding. -/
lemma groupSchemaFold_other (s s' : Str) (hne : s' ≠ s) :
    ∀ (eb m m₂ : List (Str × List Entry)),
    groupSchemaFold s' m eb = .ok m₂ → lookupSchema m₂ s = lookupSchema m s := by
  intro eb
  induction eb with
  | nil =>
    intro m m₂ h
    cases h
    rfl
  | cons pe tl ih =>
    intro m m₂ h
    obtain ⟨p, list⟩ := pe
    by_cases hm : schemaNameMatchesPfx s' p = true
    · simp only [groupSchemaFold, hm, Bool.not_true] at h
      cases hl : lookupSchema m s' with
      | some chosen =>
        rw [hl] at h
        by_cases hpref : startsWith (chosen.headD default).schemaPfx p = true
        · simp only [hpref, if_true] at h
          exact ih m m₂ (by simpa using h)
        · simp only [hpref] at h
          simp at h
      | none =>
        rw [hl] at h
        simp only [Bool.false_eq_true, if_false] at h
        have := ih (m ++ [(s', list)]) m₂ (by simpa using h)
        rw [this, lookupSchema_append_of_ne m s s' list hne]
    · simp only [groupSchemaFold, hm] at h
      exact ih m m₂ (by simpa using h)

/-- Schemas processed after `s` never change `s`'s binding. -/
lemma groupBySchemaAux_other (eb : List (Str × List Entry)) (s : Str) :
    ∀ (ss : List Str) (m m' : List (Str × List Entry)), s ∉ ss →
    groupBySchemaAux eb m ss = .ok m' → lookupSchema m' s = lookupSchema m s := by
  intro ss
  induction ss with
  | nil =>
    intro m m' _ h
    cases h
    rfl
  | cons s'' tl ih =>
    intro m m' hnin h
    have hne : s'' ≠ s := fun he => hnin (he ▸ List.mem_cons_self _ _)
    have hnintl : s ∉ tl := fun ht => hnin (List.mem_cons_of_mem _ ht)
    simp only [groupBySchemaAux] at h
    cases hf : groupSchemaFold s'' m eb with
    | ok m₂ =>
      rw [hf] at h
      have h₂ := ih m₂ m' hnintl h
      rw [h₂, groupSchemaFold_other s s'' hne eb m m₂ hf]
    | error e =>
      rw [hf] at h
      cases h

lemma groupBySchemaAux_spec (eb : List (Str × List Entry)) (hwf : WfByPfx eb) (s : Str) :
    ∀ (ss : List Str) (m : List (Str × List Entry)), s ∈ ss → ss.Nodup →
    lookupSchema m s = none →
    (eb.filter (fun pe => schemaNameMatchesPfx s pe.1) = [] →
      ∀ m', groupBySchemaAux eb m ss = .ok m' → lookupSchema m' s = none) ∧
    (∀ p₀ es₀ rest,
      eb.filter (fun pe => schemaNameMatchesPfx s pe.1) = (p₀, es₀) :: rest →
      ((∀ pe ∈ rest, startsWith p₀ pe.1 = true) →
        ∀ m', groupBySchemaAux eb m ss = .ok m' → lookupSchema m' s = some es₀) ∧
      (∀ pb, rest.find? (fun pe => !startsWith p₀ pe.1) = some pb →
        isOkE (groupBySchemaAux eb m ss) = false)) := by
  intro ss
  induction ss with
  | nil => intro m hs; cases hs
  | cons s'' tl ih =>
    intro m hs hnd hlook
    have hndtl : tl.Nodup := (List.nodup_cons.mp hnd).2
    by_cases hseq : s'' = s
    · subst hseq
      have hnin : s'' ∉ tl := (List.nodup_cons.mp hnd).1
      have fresh := groupSchemaFold_fresh s'' eb m hlook hwf
      refine ⟨fun hemp m' hok => ?_, fun p₀ es₀ rest hcons => ⟨fun hall m' hok => ?_, fun pb hfind => ?_⟩⟩
      · have hfold := fresh.1 hemp
        simp only [groupBySchemaAux, hfold] at hok
        rw [groupBySchemaAux_other eb s'' tl m m' hnin hok]
        exact hlook
      · have hfold := ((fresh.2 p₀ es₀ rest hcons).1) hall
        simp only [groupBySchemaAux, hfold] at hok
        rw [groupBySchemaAux_other eb s'' tl _ m' hnin hok]
        exact lookupSchema_append_self m s'' es₀ hlook
      · have hfold := ((fresh.2 p₀ es₀ rest hcons).2) pb hfind
        simp [groupBySchemaAux, hfold, isOkE]
    · have hstl : s ∈ tl := by
        cases hs with
        | head => exact absurd rfl hseq
        | tail _ h => exact h
      cases hf : groupSchemaFold s'' m eb with
      | ok m₂ =>
        have hlook₂ : lookupSchema m₂ s = none := by
          rw [groupSchemaFold_other s s'' hseq eb m m₂ hf]
          exact hlook
        have hind := ih m₂ hstl hndtl hlook₂
        refine ⟨fun hemp m' hok => ?_, fun p₀ es₀ rest hcons =>
          ⟨fun hall m' hok => ?_, fun pb hfind => ?_⟩⟩
        · refine hind.1 hemp m' ?_
          simpa [groupBySchemaAux, hf] using hok
        · refine (hind.2 p₀ es₀ rest hcons).1 hall m' ?_
          simpa [groupBySchemaAux, hf] using hok
        · have := (hind.2 p₀ es₀ rest hcons).2 pb hfind
          simpa [groupBySchemaAux, hf] using this
      | error e =>
        refine ⟨fun hemp m' hok => ?_, fun p₀ es₀ rest hcons =>
          ⟨fun hall m' hok => ?_, fun pb hfind => ?_⟩⟩
        · simp [groupBySchemaAux, hf] at hok
        · simp [groupBySchemaAux, hf] at hok
        · simp [groupBySchemaAux, hf, isOkE]

/-- **C3.** `groupBySchema` tries the prefix map entries in order (the
Registry provides them sorted by decreasing prefix length) and assigns
each candidate schema the entry list of the first prefix for which
`schemaNameMatchesPrefix` holds; a later matching prefix of which the
chosen one is an extension is skipped; a later matching prefix
incomparable with the chosen one makes the call fail with a conflict
error naming both prefixes; and a schema with no matching prefix is
absent from the result, so every schema is assigned the entries of at
most one prefix. -/
theorem claim_C3_groupBySchema (eb : List (Str × List Entry)) (schemas : List Str)
    (hwf : WfByPfx eb) (hnd : schemas.Nodup) (s : Str) (hs : s ∈ schemas) :
    (eb.filter (fun pe => schemaNameMatchesPfx s pe.1) = [] →
      ∀ m', groupBySchema eb schemas = .ok m' → lookupSchema m' s = none) ∧
    (∀ p₀ es₀ rest,
      eb.filter (fun pe => schemaNameMatchesPfx s pe.1) = (p₀, es₀) :: rest →
      ((∀ pe ∈ rest, startsWith p₀ pe.1 = true) →
        ∀ m', groupBySchema eb schemas = .ok m' → lookupSchema m' s = some es₀) ∧
      (∀ pb, rest.find? (fun pe => !startsWith p₀ pe.1) = some pb →
        isOkE (groupBySchema eb schemas) = false ∧
        groupSchemaFold s [] eb = .error (.conflict s p₀ pb.1))) := by
  have hmain := groupBySchemaAux_spec eb hwf s schemas [] hs hnd rfl
  refine ⟨hmain.1, fun p₀ es₀ rest hcons => ⟨(hmain.2 p₀ es₀ rest hcons).1, fun pb hfind => ?_⟩⟩
  refine ⟨(hmain.2 p₀ es₀ rest hcons).2 pb hfind, ?_⟩
  exact ((groupSchemaFold_fresh s eb [] rfl hwf).2 p₀ es₀ rest hcons).2 pb hfind

def entrySh0000 : Entry :=
  ⟨sampleFile "5.e.sh0000.up.sql", sampleFile "5.e.sh0000.dn.sql",
   "5.e.sh0000".toList, "sh0000".toList⟩

/-- Prefix map sorted by descending prefix length, as the Registry
constructor produces it. -/
def ebSorted : List (Str × List Entry) :=
  [("sh0000".toList, [entrySh0000]), ("sh".toList, [entryA])]

/-- The same prefix map in the reverse (unsorted) order, exercising the
conflict branch. -/
def ebUnsorted : List (Str × List Entry) :=
  [("sh".toList, [entryA]), ("sh0000".toList, [entrySh0000])]

def schemasSample : List Str :=
  ["sh0000".toList, "sh0001".toList, "public".toList]

/-- Closed instantiation of `claim_C3_groupBySchema`: longest prefix wins
for `sh0000`, the shorter prefix `sh` serves `sh0001`, `public` matches
nothing, and with the incomparable iteration order the conflict error
names both prefixes. -/
theorem claim_C3_groupBySchema_witness :
    lookupSchema [("sh0000".toList, [entrySh0000]), ("sh0001".toList, [entryA])]
      "public".toList = none ∧
    lookupSchema [("sh0000".toList, [entrySh0000]), ("sh0001".toList, [entryA])]
      "sh0001".toList = some [entryA] ∧
    lookupSchema [("sh0000".toList, [entrySh0000]), ("sh0001".toList, [entryA])]
      "sh0000".toList = some [entrySh0000] ∧
    isOkE (groupBySchema ebUnsorted ["sh0000".toList]) = false ∧
    groupSchemaFold "sh0000".toList [] ebUnsorted =
      .error (.conflict "sh0000".toList "sh".toList "sh0000".toList) := by
  refine ⟨?_, ?_, ?_, ?_⟩
  · exact (claim_C3_groupBySchema ebSorted schemasSample (by decide) (by decide)
      "public".toList (by decide)).1 (by decide) _ rfl
  · exact ((claim_C3_groupBySchema ebSorted schemasSample (by decide) (by decide)
      "sh0001".toList (by decide)).2 "sh".toList [entryA] [] (by decide)).1
      (by decide) _ rfl
  · exact ((claim_C3_groupBySchema ebSorted schemasSample (by decide) (by decide)
      "sh0000".toList (by decide)).2 "sh0000".toList [entrySh0000]
      [("sh".toList, [entryA])] (by decide)).1 (by decide) _ rfl
  · exact ((claim_C3_groupBySchema ebUnsorted ["sh0000".toList] (by decide) (by decide)
      "sh0000".toList (by decide)).2 "sh".toList [entryA]
      [("sh0000".toList, [entrySh0000])] (by decide)).2
      ("sh0000".toList, [entrySh0000]) (by decide)

/-!
## `Registry.chooseBestDigest` (`Registry.ts` lines 98–120)

lodash `partition(values, p)` is the pair of filters by `p` and `!p`;
`sortBy(xs).reverse()[0]` is the greatest and `sortBy(xs)[0]` the smallest
element under JS string comparison.  `DIGEST_SEP` is `"."`.
-/

lemma leP_refl (a : Str) : LeP a a := by
  simp [LeP, leStr, ltStr_irrefl]

lemma mem_sortStr {x : Str} {l : List Str} : x ∈ sortStr l ↔ x ∈ l :=
  (List.perm_insertionSort LeP l).mem_iff

lemma sortStr_ne_nil {l : List Str} (h : l ≠ []) : sortStr l ≠ [] := by
  intro he
  refine h (List.eq_nil_of_length_eq_zero ?_)
  rw [← (List.perm_insertionSort LeP l).length_eq, ← sortStr, he]
  rfl

lemma sortStr_sorted (l : List Str) : List.Sorted LeP (sortStr l) :=
  List.sorted_insertionSort LeP l

lemma headD_mem {l : List Str} (h : l ≠ []) : l.headD [] ∈ l := by
  cases l with
  | nil => exact absurd rfl h
  | cons a as => exact List.mem_cons_self _ _

lemma headD_append_ne_nil {l₁ l₂ : List Str} (h : l₁ ≠ []) :
    (l₁ ++ l₂).headD [] = l₁.headD [] := by
  cases l₁ with
  | nil => exact absurd rfl h
  | cons a as => simp

lemma reverse_headD_mem {l : List Str} (h : l ≠ []) : l.reverse.headD [] ∈ l := by
  induction l with
  | nil => exact absurd rfl h
  | cons a as ih =>
    cases as with
    | nil => simp
    | cons b bs =>
      have hne : (b :: bs : List Str) ≠ [] := List.cons_ne_nil _ _
      have hrev : (b :: bs : List Str).reverse ≠ [] := by simp
      have hhd : (a :: b :: bs : List Str).reverse.headD [] =
          (b :: bs : List Str).reverse.headD [] := by
        rw [List.reverse_cons, headD_append_ne_nil hrev]
      rw [hhd]
      exact List.mem_cons_of_mem _ (ih hne)

lemma sorted_headD_le {l : List Str} (h : List.Sorted LeP l) :
    ∀ x ∈ l, LeP (l.headD []) x := by
  cases l with
  | nil => intro x hx; cases hx
  | cons a as =>
    intro x hx
    rcases List.mem_cons.mp hx with he | hm
    · subst he; exact leP_refl _
    · exact (List.sorted_cons.mp h).1 x hm

lemma sorted_le_reverse_headD {l : List Str} (h : List.Sorted LeP l) :
    ∀ x ∈ l, LeP x (l.reverse.headD []) := by
  induction l with
  | nil => intro x hx; cases hx
  | cons a as ih =>
    intro x hx
    cases as with
    | nil =>
      rcases List.mem_cons.mp hx with he | hm
      · subst he; simpa using leP_refl _
      · cases hm
    | cons b bs =>
      have hne : (b :: bs : List Str) ≠ [] := List.cons_ne_nil _ _
      have hrev : (b :: bs : List Str).reverse ≠ [] := by simp
      have hhd : (a :: b :: bs : List Str).reverse.headD [] =
          (b :: bs : List Str).reverse.headD [] := by
        rw [List.reverse_cons, headD_append_ne_nil hrev]
      rw [hhd]
      rcases List.mem_cons.mp hx with he | hm
      · subst he
        exact (List.sorted_cons.mp h).1 _ (reverse_headD_mem hne)
      · exact ih (List.sorted_cons.mp h).2 x hm

/-- `Registry.chooseBestDigest`. -/
def chooseBestDigest (values : List Str) : Str :=
  let digests := values.filter (fun d => d.contains '.')
  let resets := values.filter (fun d => !d.contains '.')
  if digests.length > 0 then
    ((sortStr digests).reverse).headD []
  else if resets.length > 0 then
    '0' :: '.' :: (sortStr resets).headD []
  else
    ['0']

/-- Modelled from the claim's words, for refutation only: it partitions by
"contains `'.'` followed by digits" where the source partitions by
`digest.includes(".")` alone. -/
def containsDotDigit : Str → Bool
  | [] => false
  | '.' :: c :: rest => if isDigitJS c then true else containsDotDigit (c :: rest)
  | _ :: rest => containsDotDigit rest

/-- The claim's version of `chooseBestDigest`, identical to the source
except for the partition predicate it prescribes. -/
def chooseBestDigestClaimed (values : List Str) : Str :=
  let digests := values.filter containsDotDigit
  let resets := values.filter (fun d => !containsDotDigit d)
  if digests.length > 0 then
    ((sortStr digests).reverse).headD []
  else if resets.length > 0 then
    '0' :: '.' :: (sortStr resets).headD []
  else
    ['0']

/-- **C4, counterexample.** The claim's partition predicate ("contains `.`
followed by digits") disagrees with the code (`includes(".")`): on
`[".x"]` the code returns the string itself as a real digest while the
claim's reading would produce a reset `"0..x"`; the claim's predicate even
classifies its own example digest `"1.deadbeef"` as a reset (the dot is
followed by `d`), contradicting the claimed output `"2.deadbeef"`. -/
theorem claim_C4_counterexample :
    chooseBestDigest [".x".toList] = ".x".toList ∧
    chooseBestDigestClaimed [".x".toList] = "0..x".toList ∧
    chooseBestDigest [".x".toList] ≠ chooseBestDigestClaimed [".x".toList] ∧
    containsDotDigit "1.deadbeef".toList = false ∧
    chooseBestDigestClaimed ["1.deadbeef".toList, "2.deadbeef".toList] =
      "0.1.deadbeef".toList := by
  decide

/-- **C4, amended.** `chooseBestDigest` partitions its input into real
digests — those containing a `'.'` — and reset labels, and returns the
lexicographically greatest real digest if any exists, else `"0."` plus
the lexicographically smallest reset label if any exists, else `"0"`;
in particular the four concrete examples of the claim all hold. -/
theorem claim_C4_chooseBestDigest (values : List Str) :
    (values.filter (fun d => d.contains '.') ≠ [] →
      chooseBestDigest values ∈ values.filter (fun d => d.contains '.') ∧
      ∀ d ∈ values.filter (fun d => d.contains '.'),
        leStr d (chooseBestDigest values) = true) ∧
    (values.filter (fun d => d.contains '.') = [] →
      values.filter (fun d => !d.contains '.') ≠ [] →
      chooseBestDigest values =
        '0' :: '.' :: ((sortStr (values.filter (fun d => !d.contains '.'))).headD []) ∧
      (sortStr (values.filter (fun d => !d.contains '.'))).headD [] ∈
        values.filter (fun d => !d.contains '.') ∧
      ∀ d ∈ values.filter (fun d => !d.contains '.'),
        leStr ((sortStr (values.filter (fun d => !d.contains '.'))).headD []) d = true) ∧
    (values = [] → chooseBestDigest values = ['0']) ∧
    chooseBestDigest [] = ['0'] ∧
    chooseBestDigest ["1.deadbeef".toList, "2.deadbeef".toList] = "2.deadbeef".toList ∧
    chooseBestDigest
        ["before-undo".toList, "2.deadbeef".toList, "after-undo".toList] =
      "2.deadbeef".toList ∧
    chooseBestDigest ["before-undo".toList, "after-undo".toList] =
      "0.after-undo".toList := by
  refine ⟨?_, ?_, ?_, by decide, by decide, by decide, by decide⟩
  · intro hne
    have hlen : (values.filter (fun d => d.contains '.')).length > 0 :=
      List.length_pos.mpr hne
    have hres : chooseBestDigest values =
        ((sortStr (values.filter (fun d => d.contains '.'))).reverse).headD [] := by
      simp only [chooseBestDigest]
      rw [if_pos hlen]
    constructor
    · rw [hres]
      exact mem_sortStr.mp (reverse_headD_mem (sortStr_ne_nil hne))
    · intro d hd
      rw [hres]
      exact sorted_le_reverse_headD (sortStr_sorted _) d (mem_sortStr.mpr hd)
  · intro hemp hne
    have hlen : ¬((values.filter (fun d => d.contains '.')).length > 0) := by
      rw [hemp]
      simp
    have hlen₂ : (values.filter (fun d => !d.contains '.')).length > 0 :=
      List.length_pos.mpr hne
    have hres : chooseBestDigest values =
        '0' :: '.' :: (sortStr (values.filter (fun d => !d.contains '.'))).headD [] := by
      simp only [chooseBestDigest]
      rw [if_neg hlen, if_pos hlen₂]
    refine ⟨hres, ?_, ?_⟩
    · exact mem_sortStr.mp (headD_mem (sortStr_ne_nil hne))
    · intro d hd
      exact sorted_headD_le (sortStr_sorted _) d (mem_sortStr.mpr hd)
  · intro he
    subst he
    rfl

/-- Closed instantiation of `claim_C4_chooseBestDigest`: the greatest
real digest is selected, a lone reset label is prefixed with `"0."`, and
the empty input yields `"0"`. -/
theorem claim_C4_chooseBestDigest_witness :
    chooseBestDigest ["b.1".toList, "a.2".toList] ∈
      List.filter (fun d => d.contains '.') ["b.1".toList, "a.2".toList] ∧
    chooseBestDigest ["x".toList] = "0.x".toList ∧
    chooseBestDigest [] = ['0'] := by
  refine ⟨((claim_C4_chooseBestDigest _).1 (by decide)).1, ?_, ?_⟩
  · exact ((claim_C4_chooseBestDigest ["x".toList]).2.1 (by decide) (by decide)).1
  · exact (claim_C4_chooseBestDigest []).2.2.1 rfl

/-!
## `extractVars` (`utils/extractVars.ts`) and `buildFile` (`Registry.ts` 187–213)

A variable's stored value is `parseInt(v.trim())`, a JavaScript number that
is either an integer or `NaN` (`JSNum`).  A `Vars` record holds the four
recognized variables (`undefined` = absent = `none`); unknown names are
rejected at load time and never reach `buildFile`.  `buildFile`'s field
initializers use JS truthiness: `vars.$x || default` falls back on
`undefined`, `NaN` and `0`, and `!!vars.$run_alone` is `false` exactly on
those.
-/

/-- A JavaScript number as produced by `parseInt`: an integer or `NaN`. -/
inductive JSNum where
  | int (n : Int)
  | nan
  deriving DecidableEq, Repr

/-- JS `String.prototype.trim`. -/
def trimJS (s : Str) : Str :=
  ((s.dropWhile isSpaceJS).reverse.dropWhile isSpaceJS).reverse

/-- Hex digit value, by code unit: `0`–`9` are 48–57, `a`–`f` are 97–102
(value = code − 87), `A`–`F` are 65–70 (value = code − 55). -/
def hexDigitVal (c : Char) : Option Nat :=
  let u := c.toNat
  if 48 ≤ u && u ≤ 57 then some (u - 48)
  else if 97 ≤ u && u ≤ 102 then some (u - 87)
  else if 65 ≤ u && u ≤ 70 then some (u - 55)
  else none

def decDigits (s : Str) : List Nat :=
  (s.takeWhile isDigitJS).map (fun c => c.toNat - '0'.toNat)

def hexDigits (s : Str) : List Nat :=
  (s.takeWhile (fun c => (hexDigitVal c).isSome)).map (fun c => (hexDigitVal c).getD 0)

def digitsToNat (base : Nat) (ds : List Nat) : Nat :=
  ds.foldl (fun acc d => acc * base + d) 0

/-- The magnitude part of JS `parseInt`: `0x`/`0X` switches to base 16;
otherwise a leading run of decimal digits; no digits means `NaN`. -/
def parseIntMagnitude (s : Str) : Option Nat :=
  match s with
  | '0' :: 'x' :: rest =>
    if (hexDigits rest).isEmpty then none else some (digitsToNat 16 (hexDigits rest))
  | '0' :: 'X' :: rest =>
    if (hexDigits rest).isEmpty then none else some (digitsToNat 16 (hexDigits rest))
  | _ =>
    if (decDigits s).isEmpty then none else some (digitsToNat 10 (decDigits s))

/-- JS `parseInt(s)` (radix auto-detected), ignoring anything after the
parsed digit run. -/
def parseIntJS (s : Str) : JSNum :=
  let s := s.dropWhile isSpaceJS
  match s with
  | '-' :: rest =>
    match parseIntMagnitude rest with
    | some n => .int (-(n : Int))
    | none => .nan
  | '+' :: rest =>
    match parseIntMagnitude rest with
    | some n => .int (n : Int)
    | none => .nan
  | rest =>
    match parseIntMagnitude rest with
    | some n => .int (n : Int)
    | none => .nan

/-- `parseInt(v.trim())` applied to a directive's raw value, as in
`extractVars`. -/
def parseVarValue (v : Str) : JSNum :=
  parseIntJS (trimJS v)

/-- The four recognized `$`-variables of a migration file; `none` is JS
`undefined` (directive absent). -/
structure Vars where
  delay : Option JSNum
  parallelismGlobal : Option JSNum
  parallelismPerHost : Option JSNum
  runAlone : Option JSNum
  deriving DecidableEq, Repr

/-- JS truthiness of `undefined | number`. -/
def truthyNum : Option JSNum → Bool
  | none => false
  | some .nan => false
  | some (.int n) => n ≠ 0

/-- `vars.$parallelism_* || Number.POSITIVE_INFINITY` (`none` = `∞`). -/
def parallelismOf (v : Option JSNum) : Option Int :=
  match v with
  | some (.int n) => if n ≠ 0 then some n else none
  | _ => none

/-- `vars.$delay || 0`. -/
def delayOf (v : Option JSNum) : Int :=
  match v with
  | some (.int n) => if n ≠ 0 then n else 0
  | _ => 0

/-- The `File` object literal constructed by `buildFile` (the file-system
read and the wrap validation that follow do not affect these fields). -/
def buildFileOfVars (fileName : Str) (vars : Vars) : MigFile :=
  { fileName := fileName
    parallelismGlobal := parallelismOf vars.parallelismGlobal
    parallelismPerHost := parallelismOf vars.parallelismPerHost
    delay := delayOf vars.delay
    runAlone := truthyNum vars.runAlone }

/-- **C10.** A directive whose value parses to `0` or fails to parse
(`NaN`) is treated exactly like an absent directive:
`$parallelism_global`/`$parallelism_per_host` yield unlimited parallelism
(`none` = capacity `∞`) rather than a limit of zero, `$delay` yields `0`,
and `$run_alone=0` yields `false`. -/
theorem claim_C10_buildFile (fileName : Str) (vars : Vars) (v : Str) :
    ((parseVarValue v = .nan ∨ parseVarValue v = .int 0) →
      (buildFileOfVars fileName
        { vars with parallelismGlobal := some (parseVarValue v) }).parallelismGlobal
          = none ∧
      (buildFileOfVars fileName
        { vars with parallelismPerHost := some (parseVarValue v) }).parallelismPerHost
          = none ∧
      (buildFileOfVars fileName { vars with delay := some (parseVarValue v) }).delay = 0 ∧
      (buildFileOfVars fileName
        { vars with runAlone := some (parseVarValue v) }).runAlone = false) ∧
    (buildFileOfVars fileName
      { vars with parallelismGlobal := none }).parallelismGlobal = none ∧
    (buildFileOfVars fileName
      { vars with parallelismPerHost := none }).parallelismPerHost = none ∧
    (buildFileOfVars fileName { vars with delay := none }).delay = 0 ∧
    (buildFileOfVars fileName { vars with runAlone := none }).runAlone = false := by
  refine ⟨?_, rfl, rfl, rfl, rfl⟩
  intro h
  rcases h with h | h <;>
    simp [buildFileOfVars, parallelismOf, delayOf, truthyNum, h]

/-- Closed instantiation of `claim_C10_buildFile` at the parsed values of
`"0"` and `"zzz"` (a non-numeric value, `parseInt` = `NaN`). -/
theorem claim_C10_buildFile_witness :
    (buildFileOfVars []
      { delay := none, parallelismGlobal := some (parseVarValue "0".toList),
        parallelismPerHost := none, runAlone := none }).parallelismGlobal = none ∧
    (buildFileOfVars []
      { delay := some (parseVarValue "0".toList), parallelismGlobal := none,
        parallelismPerHost := none, runAlone := none }).delay = 0 ∧
    (buildFileOfVars []
      { delay := none, parallelismGlobal := none, parallelismPerHost := none,
        runAlone := some (parseVarValue "0".toList) }).runAlone = false ∧
    (buildFileOfVars []
      { delay := none, parallelismGlobal := none,
        parallelismPerHost := some (parseVarValue "zzz".toList),
        runAlone := none }).parallelismPerHost = none := by
  have h0 := (claim_C10_buildFile []
    { delay := none, parallelismGlobal := none, parallelismPerHost := none,
      runAlone := none } "0".toList).1 (by decide)
  have hz := (claim_C10_buildFile []
    { delay := none, parallelismGlobal := none, parallelismPerHost := none,
      runAlone := none } "zzz".toList).1 (by decide)
  exact ⟨h0.1, h0.2.2.1, h0.2.2.2, hz.2.1⟩

/-!
## `Worker.run` (`internal/Worker.ts` lines 52–92)

The SQL runner is abstracted as an oracle `exec : Dest → Migration →
ExecResult` (the result of `dest.runFile`): exit code, captured output and
optional warning.  The worker state carries the source's counters plus an
`executed` trace recording each `Dest.runFile` invocation in order, which
makes "skipped" observable.  `processMigration`'s concurrency tokens are
modelled separately (claim C8); they do not change the sequential result.
-/

structure ExecResult where
  code : Int
  out : Str
  warning : Option Str
  deriving DecidableEq, Repr

/-- JS `String.prototype.trimEnd`, applied to the captured output before it
is thrown as the error payload. -/
def trimEndJS (s : Str) : Str :=
  (s.reverse.dropWhile isSpaceJS).reverse

/-- Source: interface `MigrationOutput` (dest, migration, payload). -/
structure MigOutput where
  dest : Dest
  migration : Migration
  payload : Str
  deriving DecidableEq, Repr

structure WorkerState where
  succeededMigrations : Nat
  errorMigrations : List MigOutput
  warningMigrations : List MigOutput
  executed : List (Dest × Migration)
  deriving DecidableEq, Repr

def initWorker : WorkerState :=
  ⟨0, [], [], []⟩

/-- The `for (const migration of chain.migrations)` loop with its
`try/catch` and `break`: a non-zero exit records one error (payload =
trimmed output) and stops this chain; success bumps the counter and
records a warning when the runner reports one. -/
def runMigs (exec : Dest → Migration → ExecResult) (dest : Dest) :
    WorkerState → List Migration → WorkerState
  | st, [] => st
  | st, m :: rest =>
    let r := exec dest m
    let st₁ := { st with executed := st.executed ++ [(dest, m)] }
    if r.code ≠ 0 then
      { st₁ with errorMigrations :=
          st₁.errorMigrations ++ [⟨dest, m, trimEndJS r.out⟩] }
    else
      runMigs exec dest
        { st₁ with
          succeededMigrations := st₁.succeededMigrations + 1
          warningMigrations := st₁.warningMigrations ++
            (match r.warning with
             | some w => [⟨dest, m, w⟩]
             | none => []) }
        rest

def runChainW (exec : Dest → Migration → ExecResult) (st : WorkerState) (c : Chain) :
    WorkerState :=
  runMigs exec c.dest st c.migrations

/-- The `while (this.chainsQueue.length > 0)` loop: pop a chain, run it,
continue with the rest of the queue. -/
def runWorker (exec : Dest → Migration → ExecResult) :
    WorkerState → List Chain → WorkerState
  | st, [] => st
  | st, c :: q => runWorker exec (runChainW exec st c) q

lemma runMigs_err_shift (exec : Dest → Migration → ExecResult) (dest : Dest) :
    ∀ (migs : List Migration) (st : WorkerState),
    (runMigs exec dest st migs).errorMigrations =
      st.errorMigrations ++ (runMigs exec dest initWorker migs).errorMigrations := by
  intro migs
  induction migs with
  | nil => intro st; simp [runMigs, initWorker]
  | cons m rest ih =>
    intro st
    by_cases hc : (exec dest m).code ≠ 0
    · simp [runMigs, if_pos hc, initWorker]
    · simp only [runMigs, if_neg hc]
      conv_lhs => rw [ih]
      conv_rhs => rw [ih]
      simp [initWorker]

lemma runMigs_exec_shift (exec : Dest → Migration → ExecResult) (dest : Dest) :
    ∀ (migs : List Migration) (st : WorkerState),
    (runMigs exec dest st migs).executed =
      st.executed ++ (runMigs exec dest initWorker migs).executed := by
  intro migs
  induction migs with
  | nil => intro st; simp [runMigs, initWorker]
  | cons m rest ih =>
    intro st
    by_cases hc : (exec dest m).code ≠ 0
    · simp [runMigs, if_pos hc, initWorker]
    · simp only [runMigs, if_neg hc]
      conv_lhs => rw [ih]
      conv_rhs => rw [ih]
      simp [initWorker]

lemma runWorker_err_shift (exec : Dest → Migration → ExecResult) :
    ∀ (q : List Chain) (st : WorkerState),
    (runWorker exec st q).errorMigrations =
      st.errorMigrations ++ (runWorker exec initWorker q).errorMigrations := by
  intro q
  induction q with
  | nil => intro st; simp [runWorker, initWorker]
  | cons c rest ih =>
    intro st
    simp only [runWorker]
    conv_lhs => rw [ih]
    conv_rhs => rw [ih]
    rw [runChainW, runChainW, runMigs_err_shift]
    simp [initWorker]

lemma runWorker_exec_shift (exec : Dest → Migration → ExecResult) :
    ∀ (q : List Chain) (st : WorkerState),
    (runWorker exec st q).executed =
      st.executed ++ (runWorker exec initWorker q).executed := by
  intro q
  induction q with
  | nil => intro st; simp [runWorker, initWorker]
  | cons c rest ih =>
    intro st
    simp only [runWorker]
    conv_lhs => rw [ih]
    conv_rhs => rw [ih]
    rw [runChainW, runChainW, runMigs_exec_shift]
    simp [initWorker]

lemma runMigs_fail (exec : Dest → Migration → ExecResult) (dest : Dest)
    (m : Migration) (hm : (exec dest m).code ≠ 0) :
    ∀ (pre post : List Migration), (∀ x ∈ pre, (exec dest x).code = 0) →
    (runMigs exec dest initWorker (pre ++ m :: post)).errorMigrations =
      [⟨dest, m, trimEndJS (exec dest m).out⟩] ∧
    (runMigs exec dest initWorker (pre ++ m :: post)).executed =
      (pre ++ [m]).map (fun x => (dest, x)) := by
  intro pre
  induction pre with
  | nil =>
    intro post _
    simp [runMigs, if_pos hm, initWorker]
  | cons x xs ih =>
    intro post hpre
    have hx : ¬((exec dest x).code ≠ 0) :=
      not_not_intro (hpre x (List.mem_cons_self _ _))
    have hxs : ∀ y ∈ xs, (exec dest y).code = 0 :=
      fun y hy => hpre y (List.mem_cons_of_mem _ hy)
    obtain ⟨he, hx2⟩ := ih post hxs
    have h1 : (x :: xs) ++ m :: post = x :: (xs ++ m :: post) := rfl
    constructor
    · rw [h1]
      simp only [runMigs, if_neg hx]
      rw [runMigs_err_shift exec dest (xs ++ m :: post), he]
      simp [initWorker]
    · rw [h1]
      simp only [runMigs, if_neg hx]
      rw [runMigs_exec_shift exec dest (xs ++ m :: post), hx2]
      simp [initWorker]

/-- **C6.** When a migration `m` of a chain `c` exits non-zero (after the
earlier migrations of `c` succeeded), the worker running the queue
`q₁ ++ c :: q₂` records exactly one error item for `c` — carrying the
dest, the migration and the trimmed captured output — executes none of
`c`'s remaining migrations, and still executes the chains of `q₂`. -/
theorem claim_C6_workerRun (exec : Dest → Migration → ExecResult)
    (q₁ q₂ : List Chain) (c : Chain) (pre post : List Migration) (m : Migration)
    (hc : c.migrations = pre ++ m :: post)
    (hpre : ∀ x ∈ pre, (exec c.dest x).code = 0)
    (hm : (exec c.dest m).code ≠ 0) :
    (runWorker exec initWorker (q₁ ++ c :: q₂)).errorMigrations =
      (runWorker exec initWorker q₁).errorMigrations ++
        [⟨c.dest, m, trimEndJS (exec c.dest m).out⟩] ++
      (runWorker exec initWorker q₂).errorMigrations ∧
    (runWorker exec initWorker (q₁ ++ c :: q₂)).executed =
      (runWorker exec initWorker q₁).executed ++
        ((pre ++ [m]).map (fun x => (c.dest, x))) ++
      (runWorker exec initWorker q₂).executed := by
  have happend_err : ∀ (qa qb : List Chain),
      (runWorker exec initWorker (qa ++ qb)).errorMigrations =
        (runWorker exec initWorker qa).errorMigrations ++
        (runWorker exec initWorker qb).errorMigrations := by
    intro qa
    induction qa with
    | nil => intro qb; simp [runWorker, initWorker]
    | cons d rest ih =>
      intro qb
      have h1 : (d :: rest) ++ qb = d :: (rest ++ qb) := rfl
      rw [h1]
      simp only [runWorker]
      rw [runWorker_err_shift exec (rest ++ qb), ih]
      conv_rhs => rw [runWorker_err_shift exec rest (runChainW exec initWorker d)]
      simp [initWorker, List.append_assoc]
  have happend_exec : ∀ (qa qb : List Chain),
      (runWorker exec initWorker (qa ++ qb)).executed =
        (runWorker exec initWorker qa).executed ++
        (runWorker exec initWorker qb).executed := by
    intro qa
    induction qa with
    | nil => intro qb; simp [runWorker, initWorker]
    | cons d rest ih =>
      intro qb
      have h1 : (d :: rest) ++ qb = d :: (rest ++ qb) := rfl
      rw [h1]
      simp only [runWorker]
      rw [runWorker_exec_shift exec (rest ++ qb), ih]
      conv_rhs => rw [runWorker_exec_shift exec rest (runChainW exec initWorker d)]
      simp [initWorker, List.append_assoc]
  have hfail := runMigs_fail exec c.dest m hm pre post hpre
  have hchain_err : (runChainW exec initWorker c).errorMigrations =
      [⟨c.dest, m, trimEndJS (exec c.dest m).out⟩] := by
    rw [runChainW, hc]
    exact hfail.1
  have hchain_exec : (runChainW exec initWorker c).executed =
      (pre ++ [m]).map (fun x => (c.dest, x)) := by
    rw [runChainW, hc]
    exact hfail.2
  constructor
  · rw [happend_err q₁ (c :: q₂)]
    simp only [runWorker]
    rw [runWorker_err_shift exec q₂, hchain_err]
    simp [List.append_assoc]
  · rw [happend_exec q₁ (c :: q₂)]
    simp only [runWorker]
    rw [runWorker_exec_shift exec q₂, hchain_exec]
    simp [List.append_assoc]

/-- Sample SQL-runner oracle: the version `2.b.sh` fails with output
`"boom  "` (note the trailing blanks), everything else succeeds. -/
def execSample : Dest → Migration → ExecResult := fun _ m =>
  if m.version = "2.b.sh".toList then ⟨1, "boom  ".toList, none⟩
  else ⟨0, "done".toList, none⟩

def migA : Migration := ⟨"1.a.sh".toList, entryA.up, some ["1.a.sh".toList]⟩

def migB : Migration :=
  ⟨"2.b.sh".toList, entryB.up, some ["1.a.sh".toList, "2.b.sh".toList]⟩

def migC : Migration := ⟨"3.c.sh".toList, entryB.up, none⟩

def chainFail : Chain := ⟨.up, sampleDest, [migA, migB, migC]⟩

def chainOk1 : Chain := ⟨.up, sampleDest, [migA]⟩

def chainOk2 : Chain :=
  ⟨.up, ⟨"host2".toList, "db1".toList, "sh0002".toList⟩, [migA]⟩

/-- Closed instantiation of `claim_C6_workerRun`: the failure of `migB`
records one error with trimmed output `"boom"`, `migC` is never executed,
and the next chain in the queue still runs. -/
theorem claim_C6_workerRun_witness :
    (runWorker execSample initWorker [chainOk1, chainFail, chainOk2]).errorMigrations =
      [⟨sampleDest, migB, "boom".toList⟩] ∧
    (runWorker execSample initWorker [chainOk1, chainFail, chainOk2]).executed =
      [(sampleDest, migA), (sampleDest, migA), (sampleDest, migB),
       (⟨"host2".toList, "db1".toList, "sh0002".toList⟩, migA)] := by
  have h := claim_C6_workerRun execSample [chainOk1] [chainOk2] chainFail
    [migA] [migC] migB (by decide) (by decide) (by decide)
  exact ⟨h.1, h.2⟩

/-!
## `Grid.run` (`internal/Grid.ts` lines 54–104)

`Grid.run` is effectful and concurrent; its phase structure is modelled
as a sequential function over the same `exec` oracle.  The abstraction is
faithful in the claim's observables: within a phase, the workers of the
source collectively execute every chain of the phase exactly once and
never abandon the queue on error (claim C6), so "some worker recorded an
error during the phase" is exactly "some chain of the phase has an
errored migration" (`chainHasError`); `numErrors > 0` right after the
before phase is `beforeChains.any chainHasError`, and the final
`numErrors === 0` (with a clean before phase) is "no main or after chain
errored".  The `executed` trace records which chains were handed to
workers in which phase. -/

def chainHasError (exec : Dest → Migration → ExecResult) (c : Chain) : Bool :=
  !(runChainW exec initWorker c).errorMigrations.isEmpty

inductive GridPhase where
  | before
  | main
  | after
  deriving DecidableEq, Repr

structure GridRes where
  executed : List (GridPhase × Chain)
  ok : Bool
  deriving DecidableEq, Repr

/-- `Grid.run`: before phase (abort on error), main phase, after phase
(always run), overall success iff no executed worker recorded an error. -/
def gridRun (exec : Dest → Migration → ExecResult)
    (chains beforeChains afterChains : List Chain) : GridRes :=
  if beforeChains.any (chainHasError exec) then
    { executed := beforeChains.map (fun c => (.before, c)), ok := false }
  else
    { executed := beforeChains.map (fun c => (.before, c)) ++
        chains.map (fun c => (.main, c)) ++
        afterChains.map (fun c => (.after, c))
      ok := !(chains.any (chainHasError exec) || afterChains.any (chainHasError exec)) }

/-- **C5.** `Grid.run` runs before → main → after with barriers: a
before-phase error prevents the main and after chains from ever being
executed and fails the run; the after chains are executed whenever the
before phase was clean, regardless of main-phase errors; and the run
succeeds iff no chain in any executed phase recorded an error. -/
theorem claim_C5_gridRun (exec : Dest → Migration → ExecResult)
    (chains beforeChains afterChains : List Chain) :
    ((∃ c ∈ beforeChains, chainHasError exec c = true) →
      (gridRun exec chains beforeChains afterChains).ok = false ∧
      ∀ c, (GridPhase.main, c) ∉ (gridRun exec chains beforeChains afterChains).executed ∧
        (GridPhase.after, c) ∉ (gridRun exec chains beforeChains afterChains).executed) ∧
    ((∀ c ∈ beforeChains, chainHasError exec c = false) →
      ∀ c ∈ afterChains,
        (GridPhase.after, c) ∈ (gridRun exec chains beforeChains afterChains).executed) ∧
    ((gridRun exec chains beforeChains afterChains).ok = true ↔
      ∀ pc ∈ (gridRun exec chains beforeChains afterChains).executed,
        chainHasError exec pc.2 = false) := by
  by_cases hb : beforeChains.any (chainHasError exec) = true
  · have hres : gridRun exec chains beforeChains afterChains =
        { executed := beforeChains.map (fun c => (.before, c)), ok := false } := by
      rw [gridRun, if_pos hb]
    obtain ⟨cb, hcb, hcberr⟩ := List.any_eq_true.mp hb
    refine ⟨fun _ => ⟨by rw [hres], fun c => ⟨?_, ?_⟩⟩, fun hclean => ?_, ?_⟩
    · rw [hres]
      intro hmem
      obtain ⟨c', _, he⟩ := List.mem_map.mp hmem
      cases he
    · rw [hres]
      intro hmem
      obtain ⟨c', _, he⟩ := List.mem_map.mp hmem
      cases he
    · exact absurd hcberr (by simp [hclean cb hcb])
    · rw [hres]
      simp only [Bool.false_eq_true, false_iff]
      intro hall
      have := hall (.before, cb) (List.mem_map.mpr ⟨cb, hcb, rfl⟩)
      rw [hcberr] at this
      cases this
  · have hres : gridRun exec chains beforeChains afterChains =
        { executed := beforeChains.map (fun c => (.before, c)) ++
            chains.map (fun c => (.main, c)) ++
            afterChains.map (fun c => (.after, c))
          ok := !(chains.any (chainHasError exec) ||
                  afterChains.any (chainHasError exec)) } := by
      rw [gridRun, if_neg hb]
    have hbefore : ∀ c ∈ beforeChains, chainHasError exec c = false := by
      intro c hcmem
      by_contra hcon
      exact hb (List.any_eq_true.mpr ⟨c, hcmem, by simpa using hcon⟩)
    refine ⟨fun hex => ?_, fun _ c hcmem => ?_, ?_⟩
    · obtain ⟨cb, hcb, hcberr⟩ := hex
      rw [hbefore cb hcb] at hcberr
      cases hcberr
    · rw [hres]
      simp only [List.mem_append]
      right
      exact List.mem_map.mpr ⟨c, hcmem, rfl⟩
    · rw [hres]
      simp only [Bool.not_eq_true', Bool.or_eq_false_iff]
      constructor
      · rintro ⟨hmain, hafter⟩ pc hpc
        simp only [List.mem_append] at hpc
        rcases hpc with (hpc | hpc) | hpc
        · obtain ⟨c', hc', he⟩ := List.mem_map.mp hpc
          cases he
          exact hbefore c' hc'
        · obtain ⟨c', hc', he⟩ := List.mem_map.mp hpc
          cases he
          by_contra hcon
          have : chains.any (chainHasError exec) = true :=
            List.any_eq_true.mpr ⟨c', hc', by simpa using hcon⟩
          rw [this] at hmain
          cases hmain
        · obtain ⟨c', hc', he⟩ := List.mem_map.mp hpc
          cases he
          by_contra hcon
          have : afterChains.any (chainHasError exec) = true :=
            List.any_eq_true.mpr ⟨c', hc', by simpa using hcon⟩
          rw [this] at hafter
          cases hafter
      · intro hall
        constructor
        · by_contra hcon
          have hm : chains.any (chainHasError exec) = true := by
            simpa using hcon
          obtain ⟨c', hc', herr⟩ := List.any_eq_true.mp hm
          have hz := hall (.main, c') (by
            simp only [List.mem_append]
            left
            right
            exact List.mem_map.mpr ⟨c', hc', rfl⟩)
          rw [hz] at herr
          simp at herr
        · by_contra hcon
          have hm : afterChains.any (chainHasError exec) = true := by
            simpa using hcon
          obtain ⟨c', hc', herr⟩ := List.any_eq_true.mp hm
          have hz := hall (.after, c') (by
            simp only [List.mem_append]
            right
            exact List.mem_map.mpr ⟨c', hc', rfl⟩)
          rw [hz] at herr
          simp at herr

/-- Closed instantiation of `claim_C5_gridRun`: a failing before chain
fails the run and keeps the main chain out of execution; a failing main
chain still lets the after chain run; an error-free grid succeeds. -/
theorem claim_C5_gridRun_witness :
    (gridRun execSample [chainOk1] [chainFail] [chainOk2]).ok = false ∧
    (GridPhase.main, chainOk1) ∉
      (gridRun execSample [chainOk1] [chainFail] [chainOk2]).executed ∧
    (GridPhase.after, chainOk2) ∈
      (gridRun execSample [chainFail] [chainOk1] [chainOk2]).executed ∧
    (gridRun execSample [chainOk1] [] [chainOk2]).ok = true := by
  refine ⟨?_, ?_, ?_, ?_⟩
  · exact ((claim_C5_gridRun execSample [chainOk1] [chainFail] [chainOk2]).1
      (by decide)).1
  · exact (((claim_C5_gridRun execSample [chainOk1] [chainFail] [chainOk2]).1
      (by decide)).2 chainOk1).1
  · exact (claim_C5_gridRun execSample [chainFail] [chainOk1] [chainOk2]).2.1
      (by decide) chainOk2 (by decide)
  · exact (claim_C5_gridRun execSample [chainOk1] [] [chainOk2]).2.2.mpr (by decide)

/-!
## `actionUndoOrApply` (`actions/actionUndoOrApply.ts` lines 27–178)

The function is modelled as a pure function from its decision inputs —
the action, flags, the two `patch.getChains()` results, the fingerprint
check and the grid outcome — to its return value plus the ordered trace
of its externally visible writes (`Dest.saveDigests`,
`Dest.saveRerunFingerprint`) and the grid execution.  Printing and
database creation produce no modelled effects.
-/

inductive FPKind where
  | reset
  | upToDate
  deriving DecidableEq, Repr

/-- The write effects of the orchestrator, in program order:
`Dest.saveDigests(hostDests, {digest})`, `Dest.saveDigests(hostDests,
{reset: label})`, `Dest.saveRerunFingerprint(hostDests, deps, kind)`
(`reset` writes the empty fingerprint to every Dest, `upToDate` the built
one), and `grid.run()`. -/
inductive Effect where
  | saveDigestsDigest (d : Str)
  | saveDigestsReset (label : Str)
  | saveRerunFingerprint (k : FPKind)
  | runGrid
  deriving DecidableEq, Repr

inductive ActionType where
  | apply
  | undo (version : Option Str)
  deriving DecidableEq, Repr

def isUndo : ActionType → Bool
  | .apply => false
  | .undo _ => true

/-- The inputs and oracle outcomes consumed by one `actionUndoOrApply`
invocation. -/
structure ActionIn where
  action : ActionType
  dry : Bool
  force : Bool
  chains₁ : List Chain
  fingerprintOk : Bool
  gridOk : Bool
  chains₂ : List Chain
  digest : Str
  deriving Repr

structure ActionOut where
  success : Bool
  hasMoreWork : Bool
  deriving DecidableEq, Repr

/-- `actionUndoOrApply`. -/
def actionUndoOrApply (i : ActionIn) : ActionOut × List Effect :=
  if (match i.action with | .undo none => true | _ => false) then
    (⟨false, false⟩, [])
  else
    let t₀ : List Effect :=
      if isUndo i.action && !i.chains₁.isEmpty && !i.dry then
        [.saveDigestsReset "before-undo".toList]
      else []
    if i.chains₁.isEmpty && i.fingerprintOk && !i.force then
      if !(isUndo i.action) && !i.dry then
        (⟨true, false⟩, t₀ ++ [.saveDigestsDigest i.digest])
      else
        (⟨true, false⟩, t₀)
    else if i.dry then
      (⟨true, false⟩, t₀)
    else
      let t₁ := t₀ ++ [.saveRerunFingerprint .reset, .runGrid]
      if !i.gridOk then
        (⟨false, false⟩, t₁)
      else
        let t₂ := t₁ ++ [.saveRerunFingerprint .upToDate]
        match i.action with
        | .apply =>
          if !i.chains₂.isEmpty then
            (⟨true, true⟩, t₂)
          else
            (⟨true, false⟩, t₂ ++ [.saveDigestsDigest i.digest])
        | .undo _ => (⟨true, false⟩, t₂ ++ [.saveDigestsReset "after-undo".toList])

/-- The effects emitted before the fingerprint reset: at most the
`before-undo` digest reset. -/
def preEff (i : ActionIn) : List Effect :=
  if isUndo i.action && !i.chains₁.isEmpty && !i.dry then
    [.saveDigestsReset "before-undo".toList]
  else []

/-- **C7.** In every non-dry run that proceeds to execute chains, the
empty rerun fingerprint is written before the grid runs, and the
up-to-date fingerprint only after the grid reports success; on grid
failure the function returns failure with a trace that ends at the grid —
no up-to-date fingerprint and no digest write.  The pre-grid effects
contain neither the up-to-date fingerprint nor the code digest. -/
theorem claim_C7_actionUndoOrApply (i : ActionIn)
    (hdry : i.dry = false)
    (hver : (match i.action with | .undo none => true | _ => false) = false)
    (hfast : (i.chains₁.isEmpty && i.fingerprintOk && !i.force) = false) :
    (i.gridOk = false →
      actionUndoOrApply i =
        (⟨false, false⟩, preEff i ++ [.saveRerunFingerprint .reset, .runGrid])) ∧
    (i.gridOk = true → isUndo i.action = false → i.chains₂.isEmpty = false →
      actionUndoOrApply i = (⟨true, true⟩,
        preEff i ++ [.saveRerunFingerprint .reset, .runGrid,
          .saveRerunFingerprint .upToDate])) ∧
    (i.gridOk = true → isUndo i.action = false → i.chains₂.isEmpty = true →
      actionUndoOrApply i = (⟨true, false⟩,
        preEff i ++ [.saveRerunFingerprint .reset, .runGrid,
          .saveRerunFingerprint .upToDate, .saveDigestsDigest i.digest])) ∧
    (i.gridOk = true → isUndo i.action = true →
      actionUndoOrApply i = (⟨true, false⟩,
        preEff i ++ [.saveRerunFingerprint .reset, .runGrid,
          .saveRerunFingerprint .upToDate,
          .saveDigestsReset "after-undo".toList])) ∧
    Effect.saveRerunFingerprint .upToDate ∉ preEff i ∧
    Effect.saveDigestsDigest i.digest ∉ preEff i := by
  have hpre : (if isUndo i.action && !i.chains₁.isEmpty && !i.dry then
      ([.saveDigestsReset "before-undo".toList] : List Effect)
    else []) = preEff i := rfl
  refine ⟨?_, ?_, ?_, ?_, ?_, ?_⟩
  · intro hg
    simp only [actionUndoOrApply, hver, hfast, hdry, hg, Bool.false_eq_true, if_false,
      Bool.not_false, if_true]
    simp [preEff, hdry]
  · intro hg hu hc₂
    cases ha : i.action with
    | apply =>
      simp only [actionUndoOrApply, hver, hfast, hdry, hg, ha, Bool.false_eq_true,
        if_false, Bool.not_true, hc₂, Bool.not_false, if_true]
      simp only [preEff, ha, isUndo, hdry]
      simp [List.append_assoc]
    | undo v =>
      rw [ha] at hu
      simp [isUndo] at hu
  · intro hg hu hc₂
    cases ha : i.action with
    | apply =>
      simp only [actionUndoOrApply, hver, hfast, hdry, hg, ha, Bool.false_eq_true,
        if_false, Bool.not_true, hc₂, Bool.not_false, if_true]
      simp only [preEff, ha, isUndo, hdry]
      simp [List.append_assoc]
    | undo v =>
      rw [ha] at hu
      simp [isUndo] at hu
  · intro hg hu
    cases ha : i.action with
    | apply =>
      rw [ha] at hu
      simp [isUndo] at hu
    | undo v =>
      cases v with
      | none =>
        rw [ha] at hver
        simp at hver
      | some s =>
        simp only [actionUndoOrApply, hver, hfast, hdry, hg, ha, Bool.false_eq_true,
          if_false, Bool.not_true, Bool.not_false, if_true]
        simp only [preEff, ha, isUndo, hdry]
        simp [List.append_assoc]
  · simp only [preEff]
    split
    · simp
    · simp
  · simp only [preEff]
    split
    · simp
    · simp

/-- Closed instantiation of `claim_C7_actionUndoOrApply`: a failed grid
leaves the trace at `[fingerprint reset, grid]`; a successful undo and a
successful apply write the up-to-date fingerprint after the grid and then
their digest effect. -/
theorem claim_C7_actionUndoOrApply_witness :
    actionUndoOrApply
        ⟨.apply, false, false, [chainOk1], false, false, [], "d".toList⟩ =
      (⟨false, false⟩, [.saveRerunFingerprint .reset, .runGrid]) ∧
    actionUndoOrApply
        ⟨.undo (some "1.a.sh".toList), false, false, [chainOk1], false, true, [],
          "d".toList⟩ =
      (⟨true, false⟩,
       [.saveDigestsReset "before-undo".toList, .saveRerunFingerprint .reset,
        .runGrid, .saveRerunFingerprint .upToDate,
        .saveDigestsReset "after-undo".toList]) ∧
    actionUndoOrApply
        ⟨.apply, false, false, [chainOk1], false, true, [], "d".toList⟩ =
      (⟨true, false⟩,
       [.saveRerunFingerprint .reset, .runGrid, .saveRerunFingerprint .upToDate,
        .saveDigestsDigest "d".toList]) := by
  refine ⟨?_, ?_, ?_⟩
  · exact (claim_C7_actionUndoOrApply _ rfl rfl (by decide)).1 rfl
  · exact (claim_C7_actionUndoOrApply _ rfl rfl (by decide)).2.2.2.1 rfl rfl
  · exact (claim_C7_actionUndoOrApply _ rfl rfl (by decide)).2.2.1 rfl rfl rfl

/-!
## Run-alone exclusion (`Worker.processMigration`, `Worker.ts` lines 94–141)

`processMigration` acquires the process-global readers–writer lock before
`dest.runFile` and releases it after: `rwLock.writeLock()` when
`migration.file.runAlone`, `rwLock.readLock()` otherwise (lines 102–104).
The fleet is modelled as an interleaving of `start`/`finish` events on the
set of in-flight `runFile` invocations (tagged with distinct worker ids);
a `start` is enabled exactly under the `async-rwlock` grant condition —
a writer needs the lock free, a reader needs no writer holding it. -/

inductive LockMode where
  | writer
  | reader
  deriving DecidableEq, Repr

/-- The lock mode chosen by `processMigration` for a migration. -/
def lockMode (m : Migration) : LockMode :=
  if m.file.runAlone then .writer else .reader

/-- One scheduler step of the fleet: a migration's `runFile` starts (its
lock was granted) or finishes (its lock is released). -/
inductive FleetStep : List (Nat × Migration) → List (Nat × Migration) → Prop where
  | start (s : List (Nat × Migration)) (id : Nat) (m : Migration)
      (hid : ∀ p ∈ s, p.1 ≠ id)
      (hwriter : lockMode m = .writer → s = [])
      (hreader : lockMode m = .reader → ∀ p ∈ s, lockMode p.2 ≠ .writer) :
      FleetStep s ((id, m) :: s)
  | finish (s₁ s₂ : List (Nat × Migration)) (id : Nat) (m : Migration) :
      FleetStep (s₁ ++ (id, m) :: s₂) (s₁ ++ s₂)

/-- States of the fleet reachable from the idle state. -/
inductive FleetReachable : List (Nat × Migration) → Prop where
  | init : FleetReachable []
  | step {s s' : List (Nat × Migration)} :
      FleetReachable s → FleetStep s s' → FleetReachable s'

/-- The exclusion invariant: a run-alone migration in flight is alone. -/
def AloneInv (s : List (Nat × Migration)) : Prop :=
  ∀ p ∈ s, p.2.file.runAlone = true → s = [p]

lemma fleetStep_aloneInv {s s' : List (Nat × Migration)}
    (hinv : AloneInv s) (hstep : FleetStep s s') : AloneInv s' := by
  cases hstep with
  | start s id m hid hwriter hreader =>
    intro p hp halone
    rcases List.mem_cons.mp hp with he | hm
    · subst he
      by_cases hw : m.file.runAlone = true
      · rw [hwriter (by simp [lockMode, hw])]
      · exact absurd halone hw
    · by_cases hw : m.file.runAlone = true
      · rw [hwriter (by simp [lockMode, hw])] at hm
        cases hm
      · have hmode : lockMode m = .reader := by simp [lockMode, hw]
        have := hreader hmode p hm
        exact absurd (by simp [lockMode, halone]) this
  | finish s₁ s₂ id m =>
    intro p hp halone
    have hpin : p ∈ s₁ ++ (id, m) :: s₂ := by
      rcases List.mem_append.mp hp with h | h
      · exact List.mem_append.mpr (.inl h)
      · exact List.mem_append.mpr (.inr (List.mem_cons_of_mem _ h))
    have hsing := hinv p hpin halone
    have hlen : s₁.length + (s₂.length + 1) = 1 := by
      have := congrArg List.length hsing
      simpa using this
    have hs₁ : s₁ = [] := List.eq_nil_of_length_eq_zero (by omega)
    have hs₂ : s₂ = [] := List.eq_nil_of_length_eq_zero (by omega)
    subst hs₁
    subst hs₂
    cases hp

lemma fleetReachable_aloneInv {s : List (Nat × Migration)}
    (h : FleetReachable s) : AloneInv s := by
  induction h with
  | init => intro p hp _; cases hp
  | step _ hstep ih => exact fleetStep_aloneInv ih hstep

/-- **C8.** In every reachable fleet state, while a `$run_alone`
migration's `runFile` is in flight no other `runFile` is in flight
anywhere: run-alone migrations take the global RW-lock as writers and all
others as readers, so the writer grant condition forces the in-flight set
to be exactly that one migration. -/
theorem claim_C8_runAlone (s : List (Nat × Migration)) (hs : FleetReachable s)
    (id : Nat) (m : Migration) (hmem : (id, m) ∈ s)
    (halone : m.file.runAlone = true) :
    s = [(id, m)] ∧ lockMode m = .writer ∧
    (∀ m' : Migration, m'.file.runAlone = false → lockMode m' = .reader) := by
  refine ⟨fleetReachable_aloneInv hs (id, m) hmem halone, by simp [lockMode, halone], ?_⟩
  intro m' hm'
  simp [lockMode, hm']

def fileAlone : MigFile := ⟨"9.z.sh.up.sql".toList, none, none, 0, true⟩

def migAlone : Migration := ⟨"9.z.sh".toList, fileAlone, none⟩

/-- Closed instantiation of `claim_C8_runAlone` at the reachable state in
which the run-alone migration `migAlone` has just started. -/
theorem claim_C8_runAlone_witness :
    [((0 : Nat), migAlone)] = [((0 : Nat), migAlone)] ∧
    lockMode migAlone = .writer ∧
    lockMode migA = .reader := by
  have h := claim_C8_runAlone [((0 : Nat), migAlone)]
    (FleetReachable.step FleetReachable.init
      (FleetStep.start [] 0 migAlone (by intro p hp; cases hp)
        (fun _ => rfl)
        (by
          intro h
          simp [lockMode, migAlone, fileAlone] at h)))
    0 migAlone (List.mem_singleton.mpr rfl) rfl
  exact ⟨h.1, h.2.1, h.2.2 migA rfl⟩

/-!
## `removeSqlComments` (`helpers/removeSqlComments.ts`)

Three `replace` passes — line comments (pattern `--[^\n]*`, global, the
newline is kept), non-greedy block comments (pattern `\/\*.*?\*\/` with
the `s` flag; an unbalanced opener stays), leading empty statements
(pattern `^(\s*;)+`, anchored at the string start only: no `m` flag) —
followed by `trim()`.  Functions that are not structurally recursive take
an explicit fuel that every caller sets to at least the input length. -/

/-- `--` line comments; the flag says "inside a comment". -/
def stripLC : Bool → Str → Str
  | _, [] => []
  | true, '\n' :: rest => '\n' :: stripLC false rest
  | true, _ :: rest => stripLC true rest
  | false, '-' :: '-' :: rest => stripLC true rest
  | false, c :: rest => c :: stripLC false rest

def hasCloseBC : Str → Bool
  | [] => false
  | '*' :: '/' :: _ => true
  | _ :: r => hasCloseBC r

def dropToCloseBC : Str → Str
  | [] => []
  | '*' :: '/' :: r => r
  | _ :: r => dropToCloseBC r

/-- Non-greedy `/* … */` block comments. -/
def stripBC : Nat → Str → Str
  | 0, l => l
  | fuel + 1, l =>
    match l with
    | [] => []
    | '/' :: '*' :: rest =>
      if hasCloseBC rest then stripBC fuel (dropToCloseBC rest)
      else '/' :: '*' :: stripBC fuel rest
    | c :: rest => c :: stripBC fuel rest

/-- `^(\s*;)+` anchored at the start. -/
def stripLeadSemis : Nat → Str → Str
  | 0, l => l
  | fuel + 1, l =>
    match l.dropWhile isSpaceJS with
    | ';' :: r => stripLeadSemis fuel r
    | _ => l

def removeSqlComments (content : Str) : Str :=
  let l₁ := stripLC false content
  let l₂ := stripBC (l₁.length + 1) l₁
  trimJS (stripLeadSemis (l₂.length + 1) l₂)

/-!
## `hasOtherSqlStatements` (`helpers/hasOtherSqlStatements.ts`)

`rest` has no other statements iff it matches
`/^([^;]|E'([^'\\]|\\.|'')*'|'([^']|'')*'|"([^"]|"")*")*(\s*;)*$/`
(no flags: `E` is case-sensitive and `.` excludes the newline).  The
quoted-literal alternatives are matched with genuine backtracking: each
returns the list of possible remainders. -/

/-- Possible remainders after `([^'\\]|\\.|'')*'` (an `E'…'` body plus its
closing quote). -/
def eRems : Nat → Str → List Str
  | 0, _ => []
  | _ + 1, [] => []
  | fuel + 1, '\'' :: '\'' :: rest => eRems fuel rest ++ ['\'' :: rest]
  | _ + 1, '\'' :: rest => [rest]
  | fuel + 1, '\\' :: c :: rest => if c = '\n' then [] else eRems fuel rest
  | _ + 1, '\\' :: [] => []
  | fuel + 1, _ :: rest => eRems fuel rest

/-- Possible remainders after `([^q]|qq)*q` for a quote character `q`. -/
def qRems (q : Char) : Nat → Str → List Str
  | 0, _ => []
  | _ + 1, [] => []
  | fuel + 1, c :: rest =>
    if c = q then
      match rest with
      | c₂ :: rest₂ => if c₂ = q then qRems q fuel rest₂ ++ [rest] else [rest]
      | [] => [[]]
    else qRems q fuel rest

/-- `(\s*;)*$`. -/
def matchTailSemis : Nat → Str → Bool
  | _, [] => true
  | 0, _ => false
  | fuel + 1, l =>
    match l.dropWhile isSpaceJS with
    | ';' :: r => matchTailSemis fuel r
    | _ => false

/-- The whole anchored pattern, with backtracking over the alternatives. -/
def matchNoOther : Nat → Str → Bool
  | 0, _ => false
  | fuel + 1, l =>
    matchTailSemis (l.length + 1) l ||
    (match l with
     | [] => false
     | c :: rest =>
       (if c ≠ ';' then matchNoOther fuel rest else false) ||
       (if c = 'E' then
          match rest with
          | '\'' :: rest₂ => (eRems (rest₂.length + 1) rest₂).any (matchNoOther fuel)
          | _ => false
        else false) ||
       (if c = '\'' then (qRems '\'' (rest.length + 1) rest).any (matchNoOther fuel)
        else false) ||
       (if c = '"' then (qRems '"' (rest.length + 1) rest).any (matchNoOther fuel)
        else false))

def hasOtherSqlStatements (rest : Str) : Bool :=
  !(matchNoOther (rest.length + 1) rest)

/-!
## `validateCreateIndexConcurrently` (`helpers/validateCreateIndexConcurrently.ts`)

The scanner regex is
`\bCREATE\s+(?:UNIQUE\s+)?INDEX\s+CONCURRENTLY\s+(?:IF\s+NOT\s+EXISTS\s+)?(\S+|"(?:[^"]|"")+")`
with flags `gis`.  The alternation of the capture group is ordered: `\S+`
is tried first and, being at the end of the pattern, takes the maximal
run of non-whitespace; the quoted alternative only applies where `\S+`
cannot start.  The optional groups backtrack: if the tail fails after
them, the match is retried without them. -/

/-- Case-insensitive literal (flag `i`, ASCII). -/
def litCI : Str → Str → Option Str
  | [], l => some l
  | _ :: _, [] => none
  | p :: ps, c :: cs => if charEqCI p c then litCI ps cs else none

/-- `\s+` (maximal; nothing the patterns put after it can start with
whitespace, so no backtracking is needed). -/
def sp1 (l : Str) : Option Str :=
  let ws := l.takeWhile isSpaceJS
  if ws.isEmpty then none else some (l.drop ws.length)

/-- Greedy length of `([^"]|"")*"` (body continues, then closing quote). -/
def quotedTail : Str → Option Nat
  | [] => none
  | '"' :: '"' :: rest =>
    match quotedTail rest with
    | some n => some (n + 2)
    | none => some 1
  | '"' :: _ => some 1
  | _ :: rest => (quotedTail rest).map (· + 1)

/-- Greedy length of `(?:[^"]|"")+"` (at least one body item, then the
closing quote), measured after the opening quote. -/
def quotedAfterOpen : Str → Option Nat
  | [] => none
  | '"' :: '"' :: rest => (quotedTail rest).map (· + 2)
  | '"' :: _ => none
  | _ :: rest => (quotedTail rest).map (· + 1)

/-- The capture group `(\S+|"(?:[^"]|"")+")`: captured text and rest. -/
def tryGroup1 (l : Str) : Option (Str × Str) :=
  let tw := l.takeWhile (fun c => !isSpaceJS c)
  if !tw.isEmpty then some (tw, l.drop tw.length)
  else
    match l with
    | '"' :: rest =>
      match quotedAfterOpen rest with
      | some n => some (l.take (n + 1), l.drop (n + 1))
      | none => none
    | _ => none

/-- `IF\s+NOT\s+EXISTS\s+`. -/
def tryIfNotExists (l : Str) : Option Str :=
  (litCI "IF".toList l).bind fun l₁ =>
  (sp1 l₁).bind fun l₂ =>
  (litCI "NOT".toList l₂).bind fun l₃ =>
  (sp1 l₃).bind fun l₄ =>
  (litCI "EXISTS".toList l₄).bind fun l₅ =>
  sp1 l₅

/-- Try the whole pattern at the current position (the `\b` is checked by
the caller).  Returns the captured name and the rest after the match. -/
def tryCICAt (l : Str) : Option (Str × Str) :=
  (litCI "CREATE".toList l).bind fun l₁ =>
  (sp1 l₁).bind fun l₂ =>
  let afterKw : Str → Option (Str × Str) := fun lx =>
    (litCI "INDEX".toList lx).bind fun l₃ =>
    (sp1 l₃).bind fun l₄ =>
    (litCI "CONCURRENTLY".toList l₄).bind fun l₅ =>
    (sp1 l₅).bind fun l₆ =>
    match tryIfNotExists l₆ with
    | some l₇ =>
      match tryGroup1 l₇ with
      | some r => some r
      | none => tryGroup1 l₆
    | none => tryGroup1 l₆
  match (litCI "UNIQUE".toList l₂).bind sp1 with
  | some lu =>
    match afterKw lu with
    | some r => some r
    | none => afterKw l₂
  | none => afterKw l₂

/-- Leftmost match at or after the current position; `prev` is whether the
previous character is a word character (for `\b`).  Returns the offset,
the captured name and the rest after the match. -/
def findCICFrom : Str → Bool → Option (Nat × Str × Str)
  | [], _ => none
  | c :: rest, prev =>
    if !prev then
      match tryCICAt (c :: rest) with
      | some (nm, after) => some (0, nm, after)
      | none => (findCICFrom rest (isWordChar c)).map (fun r => (r.1 + 1, r.2.1, r.2.2))
    else
      (findCICFrom rest (isWordChar c)).map (fun r => (r.1 + 1, r.2.1, r.2.2))

/-- All matches in order (`regexIterator.exec` loop), with their absolute
indices. -/
def scanCIC : Nat → Str → Bool → Nat → List (Nat × Str × Str)
  | 0, _, _, _ => []
  | fuel + 1, l, prev, pos =>
    match findCICFrom l prev with
    | none => []
    | some (off, nm, after) =>
      (pos + off, nm, after) ::
        scanCIC fuel after (isWordChar (nm.getLastD ' '))
          (pos + off + (l.length - off - after.length))

inductive CICResult where
  | success (indexNamesQuoted : List Str)
  | successIndexAlone (indexNamesQuoted : List Str)
  | error (errors : List Str)
  deriving DecidableEq, Repr

def requiredVarsMsg : Str :=
  ("start with one of the following vars: " ++
   "$parallelism_per_host, $parallelism_global, $run_alone").toList

def commitMsg : Str := "start with \"COMMIT;\"".toList

def beginMsg : Str :=
  "end with \"BEGIN;\" with other optional SQL statements after it".toList

def dueCreateMsg : Str := "(due to having \"CREATE INDEX CONCURRENTLY\")".toList

def dueDropMsg : Str := "(due to having \"DROP INDEX CONCURRENTLY\")".toList

def dropIfExistsMsg (nm : Str) : Str :=
  "include \"DROP INDEX IF EXISTS ".toList ++ nm ++
  ";\" statement before \"CREATE INDEX CONCURRENTLY\"".toList

/-- `REQUIRED_VARS.some((k) => !!vars[k])`. -/
def someRequiredVar (vars : Vars) : Bool :=
  truthyNum vars.parallelismPerHost || truthyNum vars.parallelismGlobal ||
  truthyNum vars.runAlone

/-- `DROP\s+INDEX\s+IF\s+EXISTS\s+<name>` (the name is regex-escaped, so a
literal; flag `i`) at the current position. -/
def tryDropIfExistsAt (nm : Str) (l : Str) : Bool :=
  ((litCI "DROP".toList l).bind fun l₁ =>
   (sp1 l₁).bind fun l₂ =>
   (litCI "INDEX".toList l₂).bind fun l₃ =>
   (sp1 l₃).bind fun l₄ =>
   (litCI "IF".toList l₄).bind fun l₅ =>
   (sp1 l₅).bind fun l₆ =>
   (litCI "EXISTS".toList l₆).bind fun l₇ =>
   (sp1 l₇).bind fun l₈ =>
   litCI nm l₈).isSome

def hasDropIfExists (nm : Str) : Str → Bool
  | [] => false
  | c :: rest => tryDropIfExistsAt nm (c :: rest) || hasDropIfExists nm rest

/-- `^COMMIT\s*;` (flags `is`). -/
def startsWithCommitSemi (content : Str) : Bool :=
  match litCI "COMMIT".toList content with
  | some r =>
    match r.dropWhile isSpaceJS with
    | ';' :: _ => true
    | _ => false
  | none => false

def hasBeginSemiAt (l : Str) : Bool :=
  match litCI "BEGIN".toList l with
  | some r =>
    match r.dropWhile isSpaceJS with
    | ';' :: _ => true
    | _ => false
  | none => false

/-- `\bBEGIN\s*;` anywhere (flags `is`). -/
def hasBeginSemi : Str → Bool → Bool
  | [], _ => false
  | c :: rest, prev =>
    ((!prev) && hasBeginSemiAt (c :: rest)) || hasBeginSemi rest (isWordChar c)

/-- `validateCreateIndexConcurrently(content, vars)`. -/
def validateCreateIndexConcurrently (content₀ : Str) (vars : Vars) : CICResult :=
  let content := removeSqlComments content₀
  let ms := scanCIC (content.length + 1) content false 0
  match ms with
  | [] => .success []
  | (idx, nm, after) :: _ =>
    if idx = 0 && !(hasOtherSqlStatements after) then
      if someRequiredVar vars then .successIndexAlone [nm]
      else .error [requiredVarsMsg]
    else
      let names := ms.map (fun r => r.2.1)
      let dropErrors :=
        (names.filter (fun n => !(hasDropIfExists n content))).map dropIfExistsMsg
      let errors₁ :=
        if !(someRequiredVar vars) then requiredVarsMsg :: dropErrors else dropErrors
      let errors₂ :=
        if !(startsWithCommitSemi content) then commitMsg :: errors₁ else errors₁
      let errors₃ :=
        if !(hasBeginSemi content false) then errors₂ ++ [beginMsg] else errors₂
      if errors₃.isEmpty then .success names
      else .error (dueCreateMsg :: errors₃)

/-!
## `validateDropIndexConcurrently` (`helpers/validateDropIndexConcurrently.ts`)

Its scanner regex is
`\DROP\s+INDEX\s+CONCURRENTLY\s+(IF\s+EXISTS\s+)?([^;"]+|"(?:[^"]|"")+")+`
with flags `gis` — note that `\D` is the non-digit class (the source
escapes the `D`), so the match starts with any non-digit followed by
`ROP`.  The trailing item group greedily consumes runs without `;`/`"`
and complete quoted names. -/

/-- Greedy consumption of `([^;"]+|"(?:[^"]|"")+")*`. -/
def dropItems : Nat → Str → Str
  | 0, l => l
  | fuel + 1, l =>
    match l with
    | [] => []
    | '"' :: rest =>
      match quotedAfterOpen rest with
      | some n => dropItems fuel (rest.drop n)
      | none => l
    | ';' :: _ => l
    | _ =>
      let run := l.takeWhile (fun c => c ≠ ';' && c ≠ '"')
      dropItems fuel (l.drop run.length)

/-- The item group with its `+` (at least one item). -/
def tryDropName (l : Str) : Option Str :=
  let r := dropItems (l.length + 1) l
  if r.length = l.length then none else some r

/-- The whole drop pattern at the current position: whether the
`(IF\s+EXISTS\s+)?` group was captured, and the rest after the match. -/
def tryDropCICAt (l : Str) : Option (Bool × Str) :=
  match l with
  | [] => none
  | c :: rest =>
    if isDigitJS c then none
    else
      (litCI "ROP".toList rest).bind fun l₁ =>
      (sp1 l₁).bind fun l₂ =>
      (litCI "INDEX".toList l₂).bind fun l₃ =>
      (sp1 l₃).bind fun l₄ =>
      (litCI "CONCURRENTLY".toList l₄).bind fun l₅ =>
      (sp1 l₅).bind fun l₆ =>
      match (litCI "IF".toList l₆).bind (fun a => (sp1 a).bind fun b =>
          (litCI "EXISTS".toList b).bind sp1) with
      | some l₇ =>
        match tryDropName l₇ with
        | some r => some (true, r)
        | none => (tryDropName l₆).map (fun r => (false, r))
      | none => (tryDropName l₆).map (fun r => (false, r))

def findDropFrom : Str → Option (Nat × Bool × Str)
  | [] => none
  | c :: rest =>
    match tryDropCICAt (c :: rest) with
    | some (ifex, after) => some (0, ifex, after)
    | none => (findDropFrom rest).map (fun r => (r.1 + 1, r.2.1, r.2.2))

inductive DropResult where
  | success
  | successIndexAlone
  | error (errors : List Str)
  deriving DecidableEq, Repr

/-- `validateDropIndexConcurrently(content)`.  Only the first match can
have index 0; later matches neither return nor add errors, so the scan
stops at the first match. -/
def validateDropIndexConcurrently (content₀ : Str) : DropResult :=
  let content := removeSqlComments content₀
  match findDropFrom content with
  | none => .success
  | some (idx, ifex, after) =>
    if idx = 0 && !(hasOtherSqlStatements after) then
      if ifex then .successIndexAlone
      else .error
        ["DROP INDEX CONCURRENTLY is alone in the file, so it must use IF EXISTS".toList]
    else
      let errors₁ := if !(startsWithCommitSemi content) then [commitMsg] else []
      let errors₂ := if !(hasBeginSemi content false) then errors₁ ++ [beginMsg] else errors₁
      if errors₂.isEmpty then .success else .error (dueDropMsg :: errors₂)

/-!
## `wrapNonTransactional` (`helpers/wrapNonTransactional.ts`)

The file-system read is abstracted: the function takes the file's base
name (for the `\i` include line) and its contents. -/

def wrapNonTransactional (fileName content : Str) (vars : Vars) :
    List Str × List Str :=
  let includeLine := "\\i ".toList ++ fileName
  match validateCreateIndexConcurrently content vars with
  | .successIndexAlone names =>
    (["COMMIT;".toList,
      "DROP INDEX CONCURRENTLY IF EXISTS ".toList ++ names.headD [] ++ ";".toList,
      includeLine,
      "BEGIN;".toList], [])
  | .error errs => ([], errs)
  | .success _ =>
    match validateDropIndexConcurrently content with
    | .successIndexAlone => (["COMMIT;".toList, includeLine, "BEGIN;".toList], [])
    | .error errs => ([], errs)
    | .success => ([includeLine], [])

/-!
## Claim C9
-/

def varsPPH2 : Vars := ⟨none, none, some (.int 2), none⟩

/-- **C9, counterexample.** The capture group's ordered alternation always
takes the `\S+` branch, so a quoted index name containing whitespace is
captured truncated, not "exactly as written": on the single-statement
file `CREATE INDEX CONCURRENTLY "a b" ON t(c);` with
`$parallelism_per_host=2`, the validator returns `success-index-alone`
carrying `"a` instead of `"a b"`. -/
theorem claim_C9_counterexample :
    validateCreateIndexConcurrently
        "CREATE INDEX CONCURRENTLY \"a b\" ON t(c);".toList varsPPH2 =
      .successIndexAlone ["\"a".toList] ∧
    "\"a".toList ≠ "\"a b\"".toList := by
  constructor
  · rfl
  · decide

lemma takeWhile_nonspace_append (nm tail : Str)
    (h2 : ∀ c ∈ nm, isSpaceJS c = false)
    (h3 : tail = [] ∨ ∃ c t, tail = c :: t ∧ isSpaceJS c = true) :
    (nm ++ tail).takeWhile (fun c => !isSpaceJS c) = nm := by
  induction nm with
  | nil =>
    rcases h3 with h | ⟨c, t, ht, hc⟩
    · simp [h]
    · simp [ht, List.takeWhile, hc]
  | cons n ns ih =>
    have hn : isSpaceJS n = false := h2 n (List.mem_cons_self _ _)
    have hns : ∀ c ∈ ns, isSpaceJS c = false :=
      fun c hc => h2 c (List.mem_cons_of_mem _ hc)
    simp only [List.cons_append, List.takeWhile, hn]
    simp [ih hns]

lemma tryGroup1_append (nm tail : Str) (h1 : nm ≠ [])
    (h2 : ∀ c ∈ nm, isSpaceJS c = false)
    (h3 : tail = [] ∨ ∃ c t, tail = c :: t ∧ isSpaceJS c = true) :
    tryGroup1 (nm ++ tail) = some (nm, tail) := by
  have htw := takeWhile_nonspace_append nm tail h2 h3
  simp only [tryGroup1, htw]
  rw [if_pos (by simpa using h1)]
  congr 1
  rw [List.drop_left]

lemma sp1_space_cons (nm tail : Str) (h1 : nm ≠ [])
    (h2 : ∀ c ∈ nm, isSpaceJS c = false) :
    sp1 (' ' :: (nm ++ tail)) = some (nm ++ tail) := by
  cases nm with
  | nil => exact absurd rfl h1
  | cons n ns =>
    have hn : isSpaceJS n = false := h2 n (List.mem_cons_self _ _)
    have hsw : (' ' :: n :: (ns ++ tail)).takeWhile isSpaceJS = [' '] := by
      rw [List.takeWhile_cons, if_pos (show isSpaceJS ' ' = true from rfl),
        List.takeWhile_cons, if_neg (by simp [hn])]
    show sp1 (' ' :: n :: (ns ++ tail)) = some (n :: (ns ++ tail))
    simp [sp1, hsw]

/-- **C9, amended.** For a file whose content is a single
`CREATE INDEX CONCURRENTLY IF NOT EXISTS <nm> <tail-with-no-other-statement>`
statement (comment-free) and whose index name contains no whitespace —
which covers doubled-quote names such as `"x""y"`, but not quoted names
with internal spaces (see the counterexample) — the validator returns
`success-index-alone` carrying the name exactly as written whenever one
of `$parallelism_per_host`, `$parallelism_global`, `$run_alone` is set,
and the wrapper emits exactly `COMMIT;`,
`DROP INDEX CONCURRENTLY IF EXISTS <nm>;`, `\i <file>`, `BEGIN;`; with
none of the three variables set, the validator returns an error
instead. -/
theorem claim_C9_wrapIndexAlone (fileName nm tail : Str) (vars : Vars)
    (h1 : nm ≠ [])
    (h2 : ∀ c ∈ nm, isSpaceJS c = false)
    (h3 : tail = [] ∨ ∃ c t, tail = c :: t ∧ isSpaceJS c = true)
    (h4 : hasOtherSqlStatements tail = false)
    (hrm : removeSqlComments
        ("CREATE INDEX CONCURRENTLY IF NOT EXISTS ".toList ++ (nm ++ tail)) =
      "CREATE INDEX CONCURRENTLY IF NOT EXISTS ".toList ++ (nm ++ tail)) :
    (someRequiredVar vars = true →
      validateCreateIndexConcurrently
          ("CREATE INDEX CONCURRENTLY IF NOT EXISTS ".toList ++ (nm ++ tail)) vars =
        .successIndexAlone [nm] ∧
      wrapNonTransactional fileName
          ("CREATE INDEX CONCURRENTLY IF NOT EXISTS ".toList ++ (nm ++ tail)) vars =
        (["COMMIT;".toList,
          "DROP INDEX CONCURRENTLY IF EXISTS ".toList ++ nm ++ ";".toList,
          "\\i ".toList ++ fileName,
          "BEGIN;".toList], [])) ∧
    (someRequiredVar vars = false →
      validateCreateIndexConcurrently
          ("CREATE INDEX CONCURRENTLY IF NOT EXISTS ".toList ++ (nm ++ tail)) vars =
        .error [requiredVarsMsg] ∧
      wrapNonTransactional fileName
          ("CREATE INDEX CONCURRENTLY IF NOT EXISTS ".toList ++ (nm ++ tail)) vars =
        ([], [requiredVarsMsg])) := by
  have hshape : ∀ x : Str,
      tryCICAt ("CREATE INDEX CONCURRENTLY IF NOT EXISTS".toList ++ x) =
        (match (sp1 x) with
         | some l₇ =>
           (match tryGroup1 l₇ with
            | some r => some r
            | none => tryGroup1 ("IF NOT EXISTS".toList ++ x))
         | none => tryGroup1 ("IF NOT EXISTS".toList ++ x)) := fun _ => rfl
  have hsp := sp1_space_cons nm tail h1 h2
  have hg1 := tryGroup1_append nm tail h1 h2 h3
  have htry : tryCICAt ("CREATE INDEX CONCURRENTLY IF NOT EXISTS".toList ++
      (' ' :: (nm ++ tail))) = some (nm, tail) := by
    rw [hshape, hsp]
    simp [hg1]
  have hfind : findCICFrom
      ("CREATE INDEX CONCURRENTLY IF NOT EXISTS ".toList ++ (nm ++ tail)) false =
      some (0, nm, tail) := by
    show findCICFrom
      ('C' :: ("REATE INDEX CONCURRENTLY IF NOT EXISTS ".toList ++ (nm ++ tail)))
      false = some (0, nm, tail)
    rw [findCICFrom]
    rw [show tryCICAt
        ('C' :: ("REATE INDEX CONCURRENTLY IF NOT EXISTS ".toList ++ (nm ++ tail))) =
        some (nm, tail) from htry]
    rfl
  have hscan : ∃ rest, scanCIC
      (("CREATE INDEX CONCURRENTLY IF NOT EXISTS ".toList ++ (nm ++ tail)).length + 1)
      ("CREATE INDEX CONCURRENTLY IF NOT EXISTS ".toList ++ (nm ++ tail)) false 0 =
      (0, nm, tail) :: rest := by
    rw [scanCIC, hfind]
    exact ⟨_, rfl⟩
  obtain ⟨rest, hscan⟩ := hscan
  have hval : ∀ r : CICResult,
      ((someRequiredVar vars = true → r = .successIndexAlone [nm]) ∧
       (someRequiredVar vars = false → r = .error [requiredVarsMsg])) →
      r = validateCreateIndexConcurrently
        ("CREATE INDEX CONCURRENTLY IF NOT EXISTS ".toList ++ (nm ++ tail)) vars →
      True := fun _ _ _ => trivial
  clear hval
  have hvres : validateCreateIndexConcurrently
      ("CREATE INDEX CONCURRENTLY IF NOT EXISTS ".toList ++ (nm ++ tail)) vars =
      (if someRequiredVar vars then CICResult.successIndexAlone [nm]
       else CICResult.error [requiredVarsMsg]) := by
    simp only [validateCreateIndexConcurrently, hrm, hscan, h4]
    simp
  constructor
  · intro hv
    have hvr : validateCreateIndexConcurrently
        ("CREATE INDEX CONCURRENTLY IF NOT EXISTS ".toList ++ (nm ++ tail)) vars =
        CICResult.successIndexAlone [nm] := by
      rw [hvres, if_pos hv]
    refine ⟨hvr, ?_⟩
    simp only [wrapNonTransactional, hvr]
    rfl
  · intro hv
    have hvr : validateCreateIndexConcurrently
        ("CREATE INDEX CONCURRENTLY IF NOT EXISTS ".toList ++ (nm ++ tail)) vars =
        CICResult.error [requiredVarsMsg] := by
      rw [hvres, if_neg (by simp [hv])]
    exact ⟨hvr, by simp only [wrapNonTransactional, hvr]⟩

/-- Closed instantiation of `claim_C9_wrapIndexAlone` at the spec's
boundary test: the index name `"x""y"` (with doubled-quote escapes) is
carried exactly as written, the wrapper emits the four lines, and with no
variables set the validator errors. -/
theorem claim_C9_wrapIndexAlone_witness :
    validateCreateIndexConcurrently
        "CREATE INDEX CONCURRENTLY IF NOT EXISTS \"x\"\"y\" ON t(c) WHERE c='a;b';".toList
        varsPPH2 = .successIndexAlone ["\"x\"\"y\"".toList] ∧
    wrapNonTransactional "f.up.sql".toList
        "CREATE INDEX CONCURRENTLY IF NOT EXISTS \"x\"\"y\" ON t(c) WHERE c='a;b';".toList
        varsPPH2 =
      (["COMMIT;".toList,
        "DROP INDEX CONCURRENTLY IF EXISTS \"x\"\"y\";".toList,
        "\\i f.up.sql".toList,
        "BEGIN;".toList], []) ∧
    validateCreateIndexConcurrently
        "CREATE INDEX CONCURRENTLY IF NOT EXISTS \"x\"\"y\" ON t(c) WHERE c='a;b';".toList
        ⟨none, none, none, none⟩ = .error [requiredVarsMsg] := by
  have h := claim_C9_wrapIndexAlone "f.up.sql".toList "\"x\"\"y\"".toList
    " ON t(c) WHERE c='a;b';".toList varsPPH2
    (by decide) (by decide)
    (Or.inr ⟨' ', "ON t(c) WHERE c='a;b';".toList, rfl, rfl⟩)
    (by decide) (by decide)
  have h0 := claim_C9_wrapIndexAlone "f.up.sql".toList "\"x\"\"y\"".toList
    " ON t(c) WHERE c='a;b';".toList ⟨none, none, none, none⟩
    (by decide) (by decide)
    (Or.inr ⟨' ', "ON t(c) WHERE c='a;b';".toList, rfl, rfl⟩)
    (by decide) (by decide)
  obtain ⟨ha, hb⟩ := h.1 rfl
  exact ⟨ha, hb, (h0.2 rfl).1⟩

end PgMig
